import Mathlib

/-!
Verification of the billing-attribute extractor of the Concierge Services
integration (`custom_components/concierge_services/attribute_extractor.py`).

The Python module performs rule-based extraction with the standard `re`
library.  We shallowly embed the relevant fragment of Python regular
expressions: a small syntax of character classes, counted class repetition,
repeated fixed class sequences, concatenation, ordered alternation and
capturing groups — exactly the constructs used by the patterns of the module —
together with a backtracking matcher whose strategy mirrors the CPython
`re` engine (leftmost match, ordered alternation, greedy quantifiers tried
longest first).  Text is modelled as `List Char`; the Python class `\s` is modelled
by its ASCII part, which is exact on all inputs considered here.
-/

namespace Concierge

/-- A character class, as a decidable predicate on characters. -/
def CharSet : Type := Char → Bool

/-- Regular-expression syntax: exactly the fragment used by the module.
`repCls lo hi C` is the counted greedy repetition `C{lo,hi}` of a character
class (`hi = none` meaning no upper bound); `starSeq Cs` is the greedy
star of a fixed sequence of character classes (used for `(?:[.,][0-9]{3})*`);
`alt` is ordered alternation; `group i r` is the capturing group number `i`. -/
inductive Regex : Type where
  | eps : Regex
  | cls (C : CharSet) : Regex
  | repCls (lo : Nat) (hi : Option Nat) (C : CharSet) : Regex
  | starSeq (Cs : List CharSet) : Regex
  | concat (r1 r2 : Regex) : Regex
  | alt (r1 r2 : Regex) : Regex
  | group (i : Nat) (r : Regex) : Regex

/-- Captured groups: group number paired with the captured text. -/
abbrev Caps := List (Nat × String)

/-- Length of the maximal prefix of characters satisfying `C`. -/
def countWhile (C : CharSet) : List Char → Nat
  | [] => 0
  | c :: cs => if C c then countWhile C cs + 1 else 0

/-- Match a fixed sequence of character classes against a prefix,
returning the remaining input on success. -/
def matchSeq : List CharSet → List Char → Option (List Char)
  | [], cs => some cs
  | _ :: _, [] => none
  | C :: Cs, c :: cs => if C c then matchSeq Cs cs else none

/-- Consume exactly `n` consecutive chunks, each matching `Cs`. -/
def consumeChunks (Cs : List CharSet) : Nat → List Char → Option (List Char)
  | 0, cs => some cs
  | n + 1, cs =>
    match matchSeq Cs cs with
    | some rest => consumeChunks Cs n rest
    | none => none

/-- Fuelled count of the maximal number of consecutive `Cs` chunks. -/
def countChunksF (Cs : List CharSet) : Nat → List Char → Nat
  | 0, _ => 0
  | fuel + 1, cs =>
    match matchSeq Cs cs with
    | some rest => if rest.length < cs.length then countChunksF Cs fuel rest + 1 else 0
    | none => 0

/-- Maximal number of consecutive chunks matching `Cs` at the front. -/
def countChunks (Cs : List CharSet) (cs : List Char) : Nat :=
  countChunksF Cs cs.length cs

/-- Try repetition counts from `j` down to `lo` (greedy order),
returning the first success of `step`. -/
def tryCounts {α : Type} (lo : Nat) (step : Nat → Option α) : Nat → Option α
  | 0 => if lo = 0 then step 0 else none
  | j + 1 =>
    if j + 1 < lo then none
    else (step (j + 1)).orElse fun _ => tryCounts lo step j

/-- The backtracking matcher, in continuation-passing style.  The
continuation receives the remaining input and the captures accumulated so
far; alternatives are explored in exactly the CPython backtracking order:
ordered alternation, greedy quantifiers longest first. -/
def matchR {α : Type} : Regex → List Char → Caps →
    (List Char → Caps → Option α) → Option α
  | .eps, cs, caps, k => k cs caps
  | .cls C, cs, caps, k =>
    match cs with
    | [] => none
    | c :: rest => if C c then k rest caps else none
  | .repCls lo hi C, cs, caps, k =>
    let run := countWhile C cs
    let mx := match hi with | none => run | some h => min run h
    tryCounts lo (fun i => k (cs.drop i) caps) mx
  | .starSeq Cs, cs, caps, k =>
    tryCounts 0
      (fun i =>
        match consumeChunks Cs i cs with
        | some rest => k rest caps
        | none => none)
      (countChunks Cs cs)
  | .concat r1 r2, cs, caps, k =>
    matchR r1 cs caps fun cs1 caps1 => matchR r2 cs1 caps1 k
  | .alt r1 r2, cs, caps, k =>
    (matchR r1 cs caps k).orElse fun _ => matchR r2 cs caps k
  | .group i r, cs, caps, k =>
    matchR r cs caps fun cs1 caps1 =>
      k cs1 ((i, String.mk (cs.take (cs.length - cs1.length))) :: caps1)

/-- Match `r` at the start of `cs`; on success return the length of the
matched text and the captures.  This is the anchored counterpart of a
single position attempt of `re.search`. -/
def matchAt (r : Regex) (cs : List Char) : Option (Nat × Caps) :=
  matchR r cs [] fun rest caps => some (cs.length - rest.length, caps)

/-- `re.search` semantics: try `matchAt` at every position, left to right;
`pos` tracks the absolute position of the current suffix.  Returns
(start position, match length, captures). -/
def searchFrom (r : Regex) : List Char → Nat → Option (Nat × Nat × Caps)
  | cs, pos =>
    match matchAt r cs with
    | some (len, caps) => some (pos, len, caps)
    | none =>
      match cs with
      | [] => none
      | _ :: rest => searchFrom r rest (pos + 1)

/-- `re.search` on a text. -/
def reSearch (r : Regex) (cs : List Char) : Option (Nat × Nat × Caps) :=
  searchFrom r cs 0

/-- Fuelled worker for `findAll`: after a match of positive length the scan
resumes at its end; after a zero-length match it advances one character
(CPython `finditer` behaviour). -/
def findAllF (r : Regex) : Nat → List Char → Nat → List (Nat × Nat × Caps)
  | 0, _, _ => []
  | fuel + 1, cs, pos =>
    match matchAt r cs with
    | some (len, caps) =>
      (pos, len, caps) ::
        findAllF r fuel (cs.drop (max len 1)) (pos + max len 1)
    | none =>
      match cs with
      | [] => []
      | _ :: rest => findAllF r fuel rest (pos + 1)

/-- `re.finditer` semantics: all non-overlapping matches, left to right. -/
def findAll (r : Regex) (cs : List Char) : List (Nat × Nat × Caps) :=
  findAllF r (cs.length + 1) cs 0

theorem findAllF_succ (r : Regex) (fuel : Nat) (cs : List Char) (pos : Nat) :
    findAllF r (fuel + 1) cs pos =
      match matchAt r cs with
      | some (len, caps) =>
        (pos, len, caps) ::
          findAllF r fuel (cs.drop (max len 1)) (pos + max len 1)
      | none =>
        match cs with
        | [] => []
        | _ :: rest => findAllF r fuel rest (pos + 1) := rfl

/-! ## Character classes and pattern transcriptions -/

/-- Uppercase counterpart of a pattern character, covering the accented
letters occurring in the patterns of the module (Python matches case-insensitively
on Unicode; only these accented letters appear in the patterns). -/
def upperOf (c : Char) : Char :=
  if c = 'ó' then 'Ó' else if c = 'ú' then 'Ú' else c.toUpper

/-- Class of a literal pattern character under `re.IGNORECASE`. -/
def ciChar (a : Char) : CharSet := fun c => c == a || c == upperOf a

/-- Class given by an explicit list of characters. -/
def oneOf (l : List Char) : CharSet := fun c => l.contains c

/-- `[0-9]`. -/
def digitC : CharSet := fun c => c.isDigit

/-- `[a-zA-Z]`. -/
def alphaC : CharSet := fun c => c.isAlpha

/-- Python `\s` (ASCII part). -/
def isSpaceB : CharSet := oneOf [' ', '\t', '\n', '\r', '\x0b', '\x0c']

/-- `[:\s]`. -/
def colonSpaceC : CharSet := fun c => c == ':' || isSpaceB c

/-- `[^\n\r]`. -/
def notNLC : CharSet := fun c => !(c == '\n' || c == '\r')

/-- The slash-or-dash class of the numeric date pattern. -/
def slashDashC : CharSet := oneOf ['/', '-']

/-- `[.,]`. -/
def dotCommaC : CharSet := oneOf ['.', ',']

/-- `[0-9.\-]`. -/
def digitDotDashC : CharSet := fun c => c.isDigit || c == '.' || c == '-'

/-- `[°º]`. -/
def degreeC : CharSet := oneOf ['°', 'º']

/-- `[úu]` under `re.IGNORECASE`. -/
def uAccentC : CharSet := oneOf ['ú', 'u', 'Ú', 'U']

/-- `[oó]` under `re.IGNORECASE`. -/
def oAccentC : CharSet := oneOf ['o', 'ó', 'O', 'Ó']

/-- Concatenation of a list of regexes. -/
def rcat : List Regex → Regex
  | [] => .eps
  | [r] => r
  | r :: rs => .concat r (rcat rs)

/-- Ordered alternation of a list of regexes (first alternative preferred). -/
def altList : List Regex → Regex
  | [] => .eps
  | [r] => r
  | r :: rs => .alt r (altList rs)

/-- Case-insensitive literal string. -/
def ciStr (s : String) : Regex := rcat (s.data.map fun c => .cls (ciChar c))

/-- `\s+`. -/
def sp1 : Regex := .repCls 1 none isSpaceB

/-- `\s*`. -/
def sp0 : Regex := .repCls 0 none isSpaceB

/-- Greedy `(...)?`. -/
def ropt (r : Regex) : Regex := .alt r .eps

/-- Body of the first DATE_PATTERNS entry: 1-2 digits, slash or dash,
1-2 digits, slash or dash, 2-4 digits. -/
def dateInner1 : Regex :=
  rcat [.repCls 1 (some 2) digitC, .cls slashDashC,
    .repCls 1 (some 2) digitC, .cls slashDashC, .repCls 2 (some 4) digitC]

/-- The first DATE_PATTERNS entry: `dateInner1` in one capture group. -/
def datePattern1 : Regex := .group 1 dateInner1

/-- Body of `([0-9]{1,2}\s+de\s+[a-zA-Z]+\s+de\s+[0-9]{4})`. -/
def dateInner2 : Regex :=
  rcat [.repCls 1 (some 2) digitC, sp1, ciStr "de", sp1,
    .repCls 1 none alphaC, sp1, ciStr "de", sp1, .repCls 4 (some 4) digitC]

/-- `([0-9]{1,2}\s+de\s+[a-zA-Z]+\s+de\s+[0-9]{4})` — second DATE_PATTERNS entry. -/
def datePattern2 : Regex := .group 1 dateInner2

/-- Body of `([A-Za-z]+\s+[0-9]{1,2},?\s+[0-9]{4})`. -/
def dateInner3 : Regex :=
  rcat [.repCls 1 none alphaC, sp1, .repCls 1 (some 2) digitC,
    .repCls 0 (some 1) (oneOf [',']), sp1, .repCls 4 (some 4) digitC]

/-- `([A-Za-z]+\s+[0-9]{1,2},?\s+[0-9]{4})` — third DATE_PATTERNS entry. -/
def datePattern3 : Regex := .group 1 dateInner3

/-- The list `DATE_PATTERNS` of the module, in source order. -/
def DATE_PATTERNS : List Regex := [datePattern1, datePattern2, datePattern3]

/-- `_TOTAL_LABELS`:
`(?:total\s+a\s+pagar|monto\s+total|total\s+factura|importe\s+total|total\s+cuenta|valor\s+a\s+pagar|total)[:\s]+`. -/
def totalLabels : Regex :=
  .concat
    (altList [
      rcat [ciStr "total", sp1, ciStr "a", sp1, ciStr "pagar"],
      rcat [ciStr "monto", sp1, ciStr "total"],
      rcat [ciStr "total", sp1, ciStr "factura"],
      rcat [ciStr "importe", sp1, ciStr "total"],
      rcat [ciStr "total", sp1, ciStr "cuenta"],
      rcat [ciStr "valor", sp1, ciStr "a", sp1, ciStr "pagar"],
      ciStr "total"])
    (.repCls 1 none colonSpaceC)

/-- `(?:number|no\.?)`, shared by the customer/account label alternatives. -/
def numberWord : Regex :=
  .alt (ciStr "number") (rcat [ciStr "no", .repCls 0 (some 1) (oneOf ['.'])])

/-- `_CUSTOMER_LABELS`:
`(?:n[úu]mero\s+de\s+(?:cuenta|cliente)|n[°º]\s*(?:cuenta|cliente)|cuenta\s+n[°º]?|cliente\s+n[°º]?|customer\s+(?:number|no\.?)|account\s+(?:number|no\.?))[:\s]+`. -/
def customerLabels : Regex :=
  .concat
    (altList [
      rcat [ciStr "n", .cls uAccentC, ciStr "mero", sp1, ciStr "de", sp1,
        .alt (ciStr "cuenta") (ciStr "cliente")],
      rcat [ciStr "n", .cls degreeC, sp0, .alt (ciStr "cuenta") (ciStr "cliente")],
      rcat [ciStr "cuenta", sp1, ciStr "n", .repCls 0 (some 1) degreeC],
      rcat [ciStr "cliente", sp1, ciStr "n", .repCls 0 (some 1) degreeC],
      rcat [ciStr "customer", sp1, numberWord],
      rcat [ciStr "account", sp1, numberWord]])
    (.repCls 1 none colonSpaceC)

/-- `_ADDRESS_LABELS`:
`(?:direcci[oó]n(?:\s+de\s+suministro)?|domicilio|address)[:\s]+`. -/
def addressLabels : Regex :=
  .concat
    (altList [
      rcat [ciStr "direcci", .cls oAccentC, ciStr "n",
        ropt (rcat [sp1, ciStr "de", sp1, ciStr "suministro"])],
      ciStr "domicilio",
      ciStr "address"])
    (.repCls 1 none colonSpaceC)

/-- `[0-9]{1,3}(?:[.,][0-9]{3})*(?:[.,][0-9]{1,2})?` — the decimal-grouped
number shared by both `_AMOUNT_RE` alternatives. -/
def numCore : Regex :=
  rcat [.repCls 1 (some 3) digitC,
    .starSeq [dotCommaC, digitC, digitC, digitC],
    ropt (.concat (.cls dotCommaC) (.repCls 1 (some 2) digitC))]

/-- `(?:CLP|USD|EUR|pesos?)` under `re.IGNORECASE`. -/
def currencyMark : Regex :=
  altList [ciStr "clp", ciStr "usd", ciStr "eur",
    .concat (ciStr "peso") (.repCls 0 (some 1) (ciChar 's'))]

/-- `_AMOUNT_RE`:
`\$\s*([0-9]{1,3}(?:[.,][0-9]{3})*(?:[.,][0-9]{1,2})?)|([0-9]{1,3}(?:[.,][0-9]{3})*(?:[.,][0-9]{1,2})?)\s*(?:CLP|USD|EUR|pesos?)`. -/
def amountRe : Regex :=
  .alt (rcat [.cls (oneOf ['$']), sp0, .group 1 numCore])
    (rcat [.group 2 numCore, sp0, currencyMark])

/-- `([0-9]{6,})` — the capture shared by the four folio patterns. -/
def folioDigits : Regex := .group 1 (.repCls 6 none digitC)

/-- `folio[:\s]*([0-9]{6,})`. -/
def folioPattern1 : Regex :=
  .concat (rcat [ciStr "folio", .repCls 0 none colonSpaceC]) folioDigits

/-- `n[úu]mero[:\s]*([0-9]{6,})`. -/
def folioPattern2 : Regex :=
  .concat (rcat [ciStr "n", .cls uAccentC, ciStr "mero", .repCls 0 none colonSpaceC])
    folioDigits

/-- `boleta[:\s]*([0-9]{6,})`. -/
def folioPattern3 : Regex :=
  .concat (rcat [ciStr "boleta", .repCls 0 none colonSpaceC]) folioDigits

/-- `factura[:\s]*([0-9]{6,})`. -/
def folioPattern4 : Regex :=
  .concat (rcat [ciStr "factura", .repCls 0 none colonSpaceC]) folioDigits

/-- The `folio_patterns` list of `_extract_from_subject`, in source order. -/
def folioPatterns : List Regex :=
  [folioPattern1, folioPattern2, folioPattern3, folioPattern4]

/-- Body of the RUT pattern `[0-9]{1,2}\.[0-9]{3}\.[0-9]{3}-[0-9kK]`. -/
def rutInner : Regex :=
  rcat [.repCls 1 (some 2) digitC, .cls (oneOf ['.']),
    .repCls 3 (some 3) digitC, .cls (oneOf ['.']), .repCls 3 (some 3) digitC,
    .cls (oneOf ['-']), .cls (fun c => c.isDigit || c == 'k' || c == 'K')]

/-- `([0-9]{1,2}\.[0-9]{3}\.[0-9]{3}-[0-9kK])` — the RUT pattern (no
IGNORECASE flag in the source; `[kK]` is explicit). -/
def rutPattern : Regex := .group 1 rutInner

/-- `([0-9][0-9.\-]{0,19})` — customer-number token pattern. -/
def customerNumPattern : Regex :=
  .group 1 (.concat (.cls digitC) (.repCls 0 (some 19) digitDotDashC))

/-- `([^\n\r]{5,120})` — address line pattern. -/
def addressLinePattern : Regex := .group 1 (.repCls 5 (some 120) notNLC)

/-! ## Python string and dict operations -/

/-- Python `str.strip()` (whitespace from both ends), on character lists. -/
def pyStrip (l : List Char) : List Char :=
  ((l.dropWhile isSpaceB).reverse.dropWhile isSpaceB).reverse

/-- Python `str.strip()` on strings. -/
def pyStripS (s : String) : String := String.mk (pyStrip s.data)

/-- Python `re.sub(r"\s+", " ", ·)`: collapse every maximal whitespace run
to a single space. -/
def collapseWs : List Char → List Char
  | [] => []
  | [c] => if isSpaceB c then [' '] else [c]
  | c :: c2 :: cs =>
    if isSpaceB c && isSpaceB c2 then collapseWs (c2 :: cs)
    else (if isSpaceB c then ' ' else c) :: collapseWs (c2 :: cs)

/-- Python `m.group(i)`: `none` when the group did not participate. -/
def getGroup (caps : Caps) (i : Nat) : Option String := caps.lookup i

/-- Python `(a or b or "")` on two optional strings (`None` and `""` falsy). -/
def pyOrStr (a b : Option String) : String :=
  match a with
  | some s => if s ≠ "" then s else b.getD ""
  | none => b.getD ""

/-- Python truthiness of a string. -/
def strTruthy (s : String) : Bool := s ≠ ""

/-- The attribute dictionary, as an insertion-ordered association list with
unique keys (the model of a Python `dict`). -/
abbrev Attrs := List (String × String)

/-- Python `d[k] = v`: replace in place if the key exists, else append. -/
def dictInsert : Attrs → String → String → Attrs
  | [], k, v => [(k, v)]
  | (k0, v0) :: t, k, v =>
    if k0 = k then (k0, v) :: t else (k0, v0) :: dictInsert t k v

/-- Python `d1.update(d2)`. -/
def dictUpdate (d1 d2 : Attrs) : Attrs :=
  d2.foldl (fun d kv => dictInsert d kv.1 kv.2) d1

/-- Python `d.get(k)` / `k in d` lookup. -/
def dictLookup : Attrs → String → Option String
  | [], _ => none
  | (k0, v) :: t, k => if k0 = k then some v else dictLookup t k

/-! ## The extractors (transliterated from `attribute_extractor.py`) -/

/-- The loop of `_extract_total_amount` over the label occurrences from
`_TOTAL_LABELS.finditer(text)`: for each label occurrence, search the next
60 characters for an amount; return the first nonempty stripped raw amount. -/
def totalFromLabels (text : List Char) : List (Nat × Nat × Caps) → Option String
  | [] => none
  | (pos, len, _) :: rest =>
    match reSearch amountRe ((text.drop (pos + len)).take 60) with
    | some (_, _, caps) =>
      let raw := pyStripS (pyOrStr (getGroup caps 1) (getGroup caps 2))
      if raw ≠ "" then some raw else totalFromLabels text rest
    | none => totalFromLabels text rest

/-- `_extract_total_amount`: labelled search, then fallback to the first
currency amount in the whole text. -/
def extract_total_amount (text : List Char) : Option String :=
  match totalFromLabels text (findAll totalLabels text) with
  | some r => some r
  | none =>
    match reSearch amountRe text with
    | some (_, _, caps) =>
      let raw := pyStripS (pyOrStr (getGroup caps 1) (getGroup caps 2))
      if raw ≠ "" then some raw else none
    | none => none

/-- The loop of `_extract_customer_number` over the label occurrences. -/
def customerFromLabels (text : List Char) : List (Nat × Nat × Caps) → Option String
  | [] => none
  | (pos, len, _) :: rest =>
    match reSearch customerNumPattern ((text.drop (pos + len)).take 80) with
    | some (_, _, caps) => some (pyStripS ((getGroup caps 1).getD ""))
    | none => customerFromLabels text rest

/-- `_extract_customer_number`. -/
def extract_customer_number (text : List Char) : Option String :=
  customerFromLabels text (findAll customerLabels text)

/-- The loop of `_extract_address` over the label occurrences: the line
pattern is searched in the whole remainder of the text after the label. -/
def addressFromLabels (text : List Char) : List (Nat × Nat × Caps) → Option String
  | [] => none
  | (pos, len, _) :: rest =>
    match reSearch addressLinePattern (text.drop (pos + len)) with
    | some (_, _, caps) =>
      let value := pyStripS (String.mk (collapseWs ((getGroup caps 1).getD "").data))
      if value ≠ "" then some value else addressFromLabels text rest
    | none => addressFromLabels text rest

/-- `_extract_address`. -/
def extract_address (text : List Char) : Option String :=
  addressFromLabels text (findAll addressLabels text)

/-- `_DATE_KEYS` of `_extract_dates`. -/
def dateKeys : List String := ["billing_period_start", "billing_period_end"]

/-- The inner loop of `_extract_dates` for one pattern: enumerate the
matches of one pattern, stop after index 1, fill `_DATE_KEYS[i]` when empty. -/
def datesLoop : Attrs → Nat → List String → Attrs
  | dates, _, [] => dates
  | dates, i, v :: rest =>
    if 2 ≤ i then dates
    else
      let key := dateKeys.getD i ""
      let d := if (dictLookup dates key).isNone then dictInsert dates key v else dates
      datesLoop d (i + 1) rest

/-- The stripped group-1 values of all matches of a date pattern, in
`finditer` order. -/
def dateValues (p : Regex) (text : List Char) : List String :=
  (findAll p text).map fun m => pyStripS ((getGroup m.2.2 1).getD "")

/-- `_extract_dates`. -/
def extract_dates (text : List Char) : Attrs :=
  DATE_PATTERNS.foldl (fun d p => datesLoop d 0 (dateValues p text)) []

/-- The folio loop of `_extract_from_subject`: first pattern (in priority
order) with a match wins; its group 1 becomes `folio`. -/
def folioLoop (subject : List Char) : Attrs → List Regex → Attrs
  | attrs, [] => attrs
  | attrs, p :: ps =>
    match reSearch p subject with
    | some (_, _, caps) => dictInsert attrs "folio" ((getGroup caps 1).getD "")
    | none => folioLoop subject attrs ps

/-- `_extract_from_subject`. -/
def extract_from_subject (subject : List Char) : Attrs :=
  let attrs := folioLoop subject [] folioPatterns
  match reSearch rutPattern subject with
  | some (_, _, caps) => dictInsert attrs "rut_from_subject" ((getGroup caps 1).getD "")
  | none => attrs

/-- The combined text of `extract_attributes_from_email_body`:
`f"{subject}\n\n{body}"`, truncated to 15000 characters when longer. -/
def combinedText (subject body : String) : List Char :=
  let combined := subject.data ++ ('\n' :: '\n' :: body.data)
  if combined.length > 15000 then combined.take 15000 else combined

/-- `extract_attributes_from_email_body`: subject extraction, then date,
total-amount, customer-number and address extraction over the combined
text, each merged into the attribute dictionary (the truthiness guards of
the source are kept). -/
def extract_attributes_from_email_body (subject body : String) : Attrs :=
  let attributes : Attrs := []
  let attributes := dictUpdate attributes (extract_from_subject subject.data)
  let combined := combinedText subject body
  let attributes := dictUpdate attributes (extract_dates combined)
  let attributes :=
    match extract_total_amount combined with
    | some total =>
      if strTruthy total then dictInsert attributes "total_amount" total else attributes
    | none => attributes
  let attributes :=
    match extract_customer_number combined with
    | some customer =>
      if strTruthy customer then dictInsert attributes "customer_number" customer
      else attributes
    | none => attributes
  match extract_address combined with
  | some address =>
    if strTruthy address then dictInsert attributes "address" address else attributes
  | none => attributes

/-! ## A matching relation, and soundness of the engine -/

/-- `ChunksM Cs pre`: `pre` splits into consecutive chunks, each matching
the class sequence `Cs` character by character. -/
inductive ChunksM (Cs : List CharSet) : List Char → Prop where
  | nil : ChunksM Cs []
  | cons (seg rest : List Char) :
      List.Forall₂ (fun C c => C c = true) Cs seg →
      ChunksM Cs rest → ChunksM Cs (seg ++ rest)

/-- `Matches r pre caps caps2`: the regex `r` can match exactly the text
`pre`, transforming the capture list `caps` into `caps2`. -/
inductive Matches : Regex → List Char → Caps → Caps → Prop where
  | eps {caps : Caps} : Matches .eps [] caps caps
  | cls {C : CharSet} {c : Char} {caps : Caps} :
      C c = true → Matches (.cls C) [c] caps caps
  | repCls {lo : Nat} {hi : Option Nat} {C : CharSet} {pre : List Char}
      {caps : Caps} :
      lo ≤ pre.length → (∀ h, hi = some h → pre.length ≤ h) →
      (∀ c ∈ pre, C c = true) → Matches (.repCls lo hi C) pre caps caps
  | starSeq {Cs : List CharSet} {pre : List Char} {caps : Caps} :
      ChunksM Cs pre → Matches (.starSeq Cs) pre caps caps
  | concat {r1 r2 : Regex} {p1 p2 : List Char} {caps caps1 caps2 : Caps} :
      Matches r1 p1 caps caps1 → Matches r2 p2 caps1 caps2 →
      Matches (.concat r1 r2) (p1 ++ p2) caps caps2
  | altL {r1 r2 : Regex} {pre : List Char} {caps caps1 : Caps} :
      Matches r1 pre caps caps1 → Matches (.alt r1 r2) pre caps caps1
  | altR {r1 r2 : Regex} {pre : List Char} {caps caps1 : Caps} :
      Matches r2 pre caps caps1 → Matches (.alt r1 r2) pre caps caps1
  | group {r : Regex} {i : Nat} {pre : List Char} {caps caps1 : Caps} :
      Matches r pre caps caps1 →
      Matches (.group i r) pre caps ((i, String.mk pre) :: caps1)

theorem orElse_eq_some {α : Type} {x : Option α} {f : Unit → Option α} {a : α}
    (h : x.orElse f = some a) : x = some a ∨ (x = none ∧ f () = some a) := by
  cases x with
  | none => right; exact ⟨rfl, h⟩
  | some b => left; exact h

theorem tryCounts_sound {α : Type} {lo : Nat} {step : Nat → Option α} :
    ∀ {j : Nat} {a : α}, tryCounts lo step j = some a →
      ∃ i, lo ≤ i ∧ i ≤ j ∧ step i = some a := by
  intro j
  induction j with
  | zero =>
    intro a h
    simp only [tryCounts] at h
    split at h
    · exact ⟨0, by omega, by omega, h⟩
    · exact absurd h (by simp)
  | succ j ih =>
    intro a h
    simp only [tryCounts] at h
    split at h
    · exact absurd h (by simp)
    · rcases orElse_eq_some h with h1 | ⟨_, h2⟩
      · exact ⟨j + 1, by omega, le_refl _, h1⟩
      · obtain ⟨i, h3, h4, h5⟩ := ih h2
        exact ⟨i, h3, by omega, h5⟩

theorem countWhile_le_length (C : CharSet) :
    ∀ cs : List Char, countWhile C cs ≤ cs.length := by
  intro cs
  induction cs with
  | nil => simp [countWhile]
  | cons c cs ih =>
    simp only [countWhile, List.length_cons]
    split
    · omega
    · omega

theorem mem_take_of_le_countWhile {C : CharSet} :
    ∀ {cs : List Char} {i : Nat}, i ≤ countWhile C cs →
      ∀ c ∈ cs.take i, C c = true := by
  intro cs
  induction cs with
  | nil => intro i _ c hc; simp at hc
  | cons c0 cs ih =>
    intro i hi c hc
    cases i with
    | zero => simp at hc
    | succ j =>
      simp only [countWhile] at hi
      cases h0 : C c0 with
      | true =>
        simp only [h0, if_pos] at hi
        simp only [List.take_succ_cons, List.mem_cons] at hc
        rcases hc with rfl | hc
        · exact h0
        · exact ih (by omega) c hc
      | false =>
        simp only [h0, Bool.false_eq_true, if_false] at hi
        omega

theorem matchSeq_sound :
    ∀ {Cs : List CharSet} {cs rest : List Char}, matchSeq Cs cs = some rest →
      ∃ seg, cs = seg ++ rest ∧ List.Forall₂ (fun C c => C c = true) Cs seg := by
  intro Cs
  induction Cs with
  | nil =>
    intro cs rest h
    simp only [matchSeq, Option.some.injEq] at h
    exact ⟨[], by simp [h], List.Forall₂.nil⟩
  | cons C Cs ih =>
    intro cs rest h
    cases cs with
    | nil => exact absurd h (by simp [matchSeq])
    | cons c cs =>
      simp only [matchSeq] at h
      split at h
      · obtain ⟨seg, hseg, hall⟩ := ih h
        refine ⟨c :: seg, by simp [hseg], List.Forall₂.cons (by assumption) hall⟩
      · exact absurd h (by simp)

theorem consumeChunks_sound {Cs : List CharSet} :
    ∀ {n : Nat} {cs rest : List Char}, consumeChunks Cs n cs = some rest →
      ∃ pre, cs = pre ++ rest ∧ ChunksM Cs pre := by
  intro n
  induction n with
  | zero =>
    intro cs rest h
    simp only [consumeChunks, Option.some.injEq] at h
    exact ⟨[], by simp [h], ChunksM.nil⟩
  | succ n ih =>
    intro cs rest h
    simp only [consumeChunks] at h
    split at h
    next rest1 hseq =>
      obtain ⟨pre1, hpre1, hch⟩ := ih h
      obtain ⟨seg, hseg, hall⟩ := matchSeq_sound hseq
      exact ⟨seg ++ pre1, by simp [hseg, hpre1], ChunksM.cons seg pre1 hall hch⟩
    next => exact absurd h (by simp)

theorem matchR_sound {α : Type} (r : Regex) :
    ∀ (cs : List Char) (caps : Caps) (k : List Char → Caps → Option α) (a : α),
      matchR r cs caps k = some a →
      ∃ pre rest caps2, cs = pre ++ rest ∧ Matches r pre caps caps2 ∧
        k rest caps2 = some a := by
  induction r with
  | eps =>
    intro cs caps k a h
    exact ⟨[], cs, caps, rfl, Matches.eps, h⟩
  | cls C =>
    intro cs caps k a h
    cases cs with
    | nil => exact absurd h (by simp [matchR])
    | cons c rest =>
      simp only [matchR] at h
      split at h
      · exact ⟨[c], rest, caps, rfl, Matches.cls (by assumption), h⟩
      · exact absurd h (by simp)
  | repCls lo hi C =>
    intro cs caps k a h
    simp only [matchR] at h
    obtain ⟨i, hlo, hmx, hstep⟩ := tryCounts_sound h
    have hrun : i ≤ countWhile C cs := by
      cases hi with
      | none => simpa using hmx
      | some hb => simp only at hmx; omega
    have hlen : i ≤ cs.length := le_trans hrun (countWhile_le_length C cs)
    refine ⟨cs.take i, cs.drop i, caps, (List.take_append_drop i cs).symm,
      Matches.repCls ?_ ?_ ?_, hstep⟩
    · rw [List.length_take]; omega
    · intro hb hhb
      rw [List.length_take]
      cases hi with
      | none => simp at hhb
      | some hb2 =>
        simp only [Option.some.injEq] at hhb
        simp only at hmx
        omega
    · exact mem_take_of_le_countWhile hrun
  | starSeq Cs =>
    intro cs caps k a h
    simp only [matchR] at h
    obtain ⟨i, _, _, hstep0⟩ := tryCounts_sound h
    have hstep : (match consumeChunks Cs i cs with
        | some rest => k rest caps
        | none => none) = some a := hstep0
    clear hstep0
    split at hstep
    next rest hcons =>
      obtain ⟨pre, hpre, hch⟩ := consumeChunks_sound hcons
      exact ⟨pre, rest, caps, hpre, Matches.starSeq hch, hstep⟩
    next => exact absurd hstep (by simp)
  | concat r1 r2 ih1 ih2 =>
    intro cs caps k a h
    simp only [matchR] at h
    obtain ⟨pre1, rest1, caps1, hcs, hm1, hk1⟩ := ih1 cs caps _ a h
    obtain ⟨pre2, rest, caps2, hcs1, hm2, hk2⟩ := ih2 rest1 caps1 k a hk1
    exact ⟨pre1 ++ pre2, rest, caps2, by simp [hcs, hcs1],
      Matches.concat hm1 hm2, hk2⟩
  | alt r1 r2 ih1 ih2 =>
    intro cs caps k a h
    simp only [matchR] at h
    rcases orElse_eq_some h with h1 | ⟨_, h2⟩
    · obtain ⟨pre, rest, caps2, hcs, hm, hk⟩ := ih1 cs caps k a h1
      exact ⟨pre, rest, caps2, hcs, Matches.altL hm, hk⟩
    · obtain ⟨pre, rest, caps2, hcs, hm, hk⟩ := ih2 cs caps k a h2
      exact ⟨pre, rest, caps2, hcs, Matches.altR hm, hk⟩
  | group i r ih =>
    intro cs caps k a h
    simp only [matchR] at h
    obtain ⟨pre, rest, caps1, hcs, hm, hk⟩ := ih cs caps _ a h
    have hpre : cs.take (cs.length - rest.length) = pre := by
      subst hcs
      have : (pre ++ rest).length - rest.length = pre.length := by
        simp [List.length_append]
      rw [this]
      exact List.take_left pre rest
    refine ⟨pre, rest, (i, String.mk pre) :: caps1, hcs, Matches.group hm, ?_⟩
    rw [hpre] at hk
    exact hk

/-! ## Nullability and possible first characters -/

/-- Whether `r` can match the empty text. -/
def nullable : Regex → Bool
  | .eps => true
  | .cls _ => false
  | .repCls lo _ _ => lo == 0
  | .starSeq _ => true
  | .concat r1 r2 => nullable r1 && nullable r2
  | .alt r1 r2 => nullable r1 || nullable r2
  | .group _ r => nullable r

/-- Whether `c` can be the first character of a nonempty match of `r`. -/
def firstB : Regex → Char → Bool
  | .eps, _ => false
  | .cls C, c => C c
  | .repCls _ _ C, c => C c
  | .starSeq Cs, c => match Cs with | [] => false | C :: _ => C c
  | .concat r1 r2, c => firstB r1 c || (nullable r1 && firstB r2 c)
  | .alt r1 r2, c => firstB r1 c || firstB r2 c
  | .group _ r, c => firstB r c

theorem chunksM_first {Cs : List CharSet} {l : List Char} (h : ChunksM Cs l) :
    ∀ {c : Char} {pre : List Char}, l = c :: pre →
      ∃ C Cs2, Cs = C :: Cs2 ∧ C c = true := by
  induction h with
  | nil => intro c pre he; exact absurd he (by simp)
  | cons seg rest hall _ ih =>
    intro c pre he
    cases seg with
    | nil =>
      simp only [List.nil_append] at he
      exact ih he
    | cons c0 seg =>
      simp only [List.cons_append, List.cons.injEq] at he
      cases hall with
      | cons hC hrest =>
        exact ⟨_, _, rfl, he.1 ▸ hC⟩

theorem matches_nullable {r : Regex} {pre : List Char} {caps caps2 : Caps}
    (h : Matches r pre caps caps2) : pre = [] → nullable r = true := by
  induction h with
  | eps => intro; rfl
  | cls _ => intro he; exact absurd he (by simp)
  | repCls hlo _ _ =>
    intro he
    subst he
    simp only [List.length_nil, Nat.le_zero] at hlo
    simp [nullable, hlo]
  | starSeq _ => intro; rfl
  | concat _ _ ih1 ih2 =>
    intro he
    rcases List.append_eq_nil.mp he with ⟨h1, h2⟩
    simp [nullable, ih1 h1, ih2 h2]
  | altL _ ih => intro he; simp [nullable, ih he]
  | altR _ ih => intro he; simp [nullable, ih he]
  | group _ ih => intro he; simp [nullable, ih he]

theorem matches_first {r : Regex} {pre : List Char} {caps caps2 : Caps}
    (h : Matches r pre caps caps2) :
    ∀ {c : Char} {pre2 : List Char}, pre = c :: pre2 → firstB r c = true := by
  induction h with
  | eps => intro c pre2 he; exact absurd he (by simp)
  | cls hC =>
    intro c pre2 he
    simp only [List.cons.injEq] at he
    simp [firstB, he.1 ▸ hC]
  | repCls _ _ hall =>
    intro c pre2 he
    exact hall c (he ▸ List.mem_cons_self c pre2)
  | starSeq hch =>
    intro c pre2 he
    obtain ⟨C, Cs2, hCs, hC⟩ := chunksM_first hch he
    simp [firstB, hCs, hC]
  | @concat r1 r2 p1 p2 caps0 caps1 caps2 hm1 hm2 ih1 ih2 =>
    intro c pre2 he
    cases p1 with
    | nil =>
      rw [List.nil_append] at he
      have h2 := ih2 he
      have h1 := matches_nullable hm1 rfl
      simp [firstB, h1, h2]
    | cons c0 t =>
      rw [List.cons_append] at he
      injection he with he1 he2
      subst he1
      have h1 := ih1 rfl
      simp [firstB, h1]
  | altL _ ih => intro c pre2 he; simp [firstB, ih he]
  | altR _ ih => intro c pre2 he; simp [firstB, ih he]
  | group _ ih => intro c pre2 he; simp [firstB, ih he]

/-- Whether `r` contains no capturing group. -/
def groupFree : Regex → Bool
  | .eps => true
  | .cls _ => true
  | .repCls _ _ _ => true
  | .starSeq _ => true
  | .concat r1 r2 => groupFree r1 && groupFree r2
  | .alt r1 r2 => groupFree r1 && groupFree r2
  | .group _ _ => false

theorem matches_groupFree {r : Regex} {pre : List Char} {caps caps2 : Caps}
    (h : Matches r pre caps caps2) : groupFree r = true → caps2 = caps := by
  induction h with
  | eps => intro; rfl
  | cls _ => intro; rfl
  | repCls _ _ _ => intro; rfl
  | starSeq _ => intro; rfl
  | concat _ _ ih1 ih2 =>
    intro hg
    simp only [groupFree, Bool.and_eq_true] at hg
    rw [ih2 hg.2, ih1 hg.1]
  | altL _ ih => intro hg; simp only [groupFree, Bool.and_eq_true] at hg; exact ih hg.1
  | altR _ ih => intro hg; simp only [groupFree, Bool.and_eq_true] at hg; exact ih hg.2
  | group _ _ => intro hg; exact absurd hg (by simp [groupFree])

/-! ## Search-level soundness -/

theorem matchAt_sound {r : Regex} {cs : List Char} {len : Nat} {caps : Caps}
    (h : matchAt r cs = some (len, caps)) :
    ∃ pre rest, cs = pre ++ rest ∧ pre.length = len ∧ Matches r pre [] caps := by
  obtain ⟨pre, rest, caps2, hcs, hm, hk⟩ := matchR_sound r cs [] _ _ h
  simp only [Option.some.injEq, Prod.mk.injEq] at hk
  have hlen : cs.length - rest.length = pre.length := by
    subst hcs; simp [List.length_append]
  exact ⟨pre, rest, hcs, by omega, hk.2 ▸ hm⟩

theorem matchAt_none_head {r : Regex} {c : Char} (hn : nullable r = false)
    (hf : firstB r c = false) (l : List Char) : matchAt r (c :: l) = none := by
  cases hm : matchAt r (c :: l) with
  | none => rfl
  | some p =>
    exfalso
    obtain ⟨len, caps⟩ := p
    obtain ⟨pre, rest, hcs, _, hmat⟩ := matchAt_sound hm
    cases pre with
    | nil => rw [matches_nullable hmat rfl] at hn; simp at hn
    | cons c0 t =>
      simp only [List.cons_append, List.cons.injEq] at hcs
      rw [← hcs.1] at hmat
      rw [matches_first hmat rfl] at hf
      simp at hf

theorem matchAt_none_nil {r : Regex} (hn : nullable r = false) :
    matchAt r [] = none := by
  cases hm : matchAt r ([] : List Char) with
  | none => rfl
  | some p =>
    exfalso
    obtain ⟨len, caps⟩ := p
    obtain ⟨pre, rest, hcs, _, hmat⟩ := matchAt_sound hm
    rcases List.append_eq_nil.mp hcs.symm with ⟨h1, _⟩
    rw [matches_nullable hmat h1] at hn
    simp at hn

theorem searchFrom_sound {r : Regex} :
    ∀ {cs : List Char} {pos p len : Nat} {caps : Caps},
      searchFrom r cs pos = some (p, len, caps) →
      ∃ pre cs2, cs = pre ++ cs2 ∧ matchAt r cs2 = some (len, caps) := by
  intro cs
  induction cs with
  | nil =>
    intro pos p len caps h
    rw [searchFrom] at h
    cases hm : matchAt r ([] : List Char) with
    | none => rw [hm] at h; exact absurd h (by simp)
    | some q =>
      obtain ⟨len0, caps0⟩ := q
      rw [hm] at h
      simp only [Option.some.injEq, Prod.mk.injEq] at h
      exact ⟨[], [], rfl, by rw [hm, h.2.1, h.2.2]⟩
  | cons c0 t ih =>
    intro pos p len caps h
    rw [searchFrom] at h
    cases hm : matchAt r (c0 :: t) with
    | some q =>
      obtain ⟨len0, caps0⟩ := q
      rw [hm] at h
      simp only [Option.some.injEq, Prod.mk.injEq] at h
      exact ⟨[], c0 :: t, rfl, by rw [hm, h.2.1, h.2.2]⟩
    | none =>
      rw [hm] at h
      obtain ⟨pre, cs2, hcs, hmt⟩ := ih h
      exact ⟨c0 :: pre, cs2, by simp [hcs], hmt⟩

theorem findAllF_sound {r : Regex} :
    ∀ {fuel : Nat} {cs : List Char} {pos p len : Nat} {caps : Caps},
      (p, len, caps) ∈ findAllF r fuel cs pos →
      ∃ pre cs2, cs = pre ++ cs2 ∧ matchAt r cs2 = some (len, caps) := by
  intro fuel
  induction fuel with
  | zero => intro cs pos p len caps h; exact absurd h (by simp [findAllF])
  | succ fuel ih =>
    intro cs pos p len caps h
    rw [findAllF_succ] at h
    cases hm : matchAt r cs with
    | some q =>
      obtain ⟨len0, caps0⟩ := q
      rw [hm] at h
      simp only [List.mem_cons, Prod.mk.injEq] at h
      rcases h with ⟨_, h2, h3⟩ | h
      · exact ⟨[], cs, rfl, by rw [hm, h2, h3]⟩
      · obtain ⟨pre, cs2, hcs, hmt⟩ := ih h
        exact ⟨cs.take (max len0 1) ++ pre, cs2,
          by rw [List.append_assoc, ← hcs, List.take_append_drop], hmt⟩
    | none =>
      rw [hm] at h
      cases cs with
      | nil => exact absurd h (by simp)
      | cons c0 t =>
        obtain ⟨pre, cs2, hcs, hmt⟩ := ih h
        exact ⟨c0 :: pre, cs2, by simp [hcs], hmt⟩

theorem findAll_sound {r : Regex} {cs : List Char} {p len : Nat} {caps : Caps}
    (h : (p, len, caps) ∈ findAll r cs) :
    ∃ pre cs2, cs = pre ++ cs2 ∧ matchAt r cs2 = some (len, caps) :=
  findAllF_sound h

/-! ## Skipping runs of a character no pattern can start with -/

theorem searchFrom_replicate {r : Regex} {c : Char} (hn : nullable r = false)
    (hf : firstB r c = false) :
    ∀ (n : Nat) (rest : List Char) (pos : Nat),
      searchFrom r (List.replicate n c ++ rest) pos = searchFrom r rest (pos + n) := by
  intro n
  induction n with
  | zero => intro rest pos; simp
  | succ n ih =>
    intro rest pos
    rw [List.replicate_succ, List.cons_append, searchFrom,
      matchAt_none_head hn hf, ih rest (pos + 1)]
    have : pos + 1 + n = pos + (n + 1) := by omega
    rw [this]

theorem findAllF_replicate {r : Regex} {c : Char} (hn : nullable r = false)
    (hf : firstB r c = false) :
    ∀ (fuel n pos : Nat), findAllF r fuel (List.replicate n c) pos = [] := by
  intro fuel
  induction fuel with
  | zero => intro n pos; rfl
  | succ fuel ih =>
    intro n pos
    cases n with
    | zero => rw [List.replicate_zero, findAllF_succ, matchAt_none_nil hn]
    | succ n =>
      rw [List.replicate_succ, findAllF_succ, matchAt_none_head hn hf]
      exact ih n (pos + 1)

theorem findAll_replicate {r : Regex} {c : Char} (hn : nullable r = false)
    (hf : firstB r c = false) (n : Nat) :
    findAll r (List.replicate n c) = [] :=
  findAllF_replicate hn hf _ n 0

theorem reSearch_replicate_none {r : Regex} {c : Char} (hn : nullable r = false)
    (hf : firstB r c = false) (n : Nat) :
    reSearch r (List.replicate n c) = none := by
  have h := searchFrom_replicate hn hf n [] 0
  rw [List.append_nil] at h
  rw [reSearch, h, searchFrom, matchAt_none_nil hn]

/-! ## Captured values of the concrete patterns are nonempty -/

theorem matches_peel {A B : Regex} {pre : List Char} {caps caps2 : Caps}
    (h : Matches (.concat A B) pre caps caps2) (hA : groupFree A = true) :
    ∃ p2, Matches B p2 caps caps2 := by
  cases h with
  | concat h1 h2 => exact ⟨_, (matches_groupFree h1 hA) ▸ h2⟩

theorem string_mk_ne_empty {l : List Char} (h : l ≠ []) : String.mk l ≠ "" := by
  intro he
  exact h (congrArg String.data he)

theorem mem_dropWhile_of_mem {p : Char → Bool} {c : Char} :
    ∀ {l : List Char}, c ∈ l → p c = false → c ∈ l.dropWhile p := by
  intro l
  induction l with
  | nil => intro h; exact absurd h (by simp)
  | cons c0 t ih =>
    intro hm hp
    rw [List.dropWhile_cons]
    split
    · rcases List.mem_cons.mp hm with rfl | hm2
      · rename_i hpc0; rw [hp] at hpc0; exact absurd hpc0 (by simp)
      · exact ih hm2 hp
    · exact hm

theorem mem_pyStrip {c : Char} {l : List Char} (hm : c ∈ l)
    (hp : isSpaceB c = false) : c ∈ pyStrip l := by
  unfold pyStrip
  rw [List.mem_reverse]
  refine mem_dropWhile_of_mem ?_ hp
  rw [List.mem_reverse]
  exact mem_dropWhile_of_mem hm hp

theorem pyStrip_ne_empty {c : Char} {l : List Char} (hm : c ∈ l)
    (hp : isSpaceB c = false) : pyStrip l ≠ [] := by
  intro he
  have := mem_pyStrip hm hp
  rw [he] at this
  exact absurd this (by simp)

/-- The captures of a successful anchored match of a folio pattern:
exactly group 1, holding at least six digits, hence nonempty. -/
theorem matchAt_folio_shape {L : Regex} (hL : groupFree L = true)
    {cs : List Char} {len : Nat} {caps : Caps}
    (h : matchAt (.concat L folioDigits) cs = some (len, caps)) :
    ∃ g, caps = [(1, g)] ∧ g ≠ "" := by
  obtain ⟨pre, rest, _, _, hmat⟩ := matchAt_sound h
  obtain ⟨p2, h2⟩ := matches_peel hmat hL
  have h3 : Matches (.group 1 (.repCls 6 none digitC)) p2 [] caps := h2
  cases h3 with
  | group hr =>
    cases hr with
    | repCls hlo _ _ =>
      refine ⟨String.mk p2, rfl, string_mk_ne_empty ?_⟩
      intro he
      rw [he] at hlo
      simp at hlo

/-- The captures of a successful anchored match of `group 1 inner`, for a
group-free non-nullable `inner` whose possible first characters are never
whitespace: exactly group 1, and still nonempty after stripping. -/
theorem matchAt_group1_strip {inner : Regex} (hn : nullable inner = false)
    (hg : groupFree inner = true)
    (hf : ∀ c, firstB inner c = true → isSpaceB c = false)
    {cs : List Char} {len : Nat} {caps : Caps}
    (h : matchAt (.group 1 inner) cs = some (len, caps)) :
    ∃ g, caps = [(1, g)] ∧ pyStripS g ≠ "" := by
  obtain ⟨pre, rest, _, _, hmat⟩ := matchAt_sound h
  cases hmat with
  | group hr =>
    rw [matches_groupFree hr hg]
    cases pre with
    | nil => rw [matches_nullable hr rfl] at hn; simp at hn
    | cons c0 t =>
      refine ⟨String.mk (c0 :: t), rfl, ?_⟩
      have hc0 : isSpaceB c0 = false := hf c0 (matches_first hr rfl)
      have : pyStrip (c0 :: t) ≠ [] :=
        pyStrip_ne_empty (List.mem_cons_self c0 t) hc0
      simp only [pyStripS]
      exact string_mk_ne_empty this

/-- The captures of a successful anchored match of `group 1 inner`, for a
group-free non-nullable `inner`: exactly group 1, and nonempty. -/
theorem matchAt_group1_ne {inner : Regex} (hn : nullable inner = false)
    (hg : groupFree inner = true)
    {cs : List Char} {len : Nat} {caps : Caps}
    (h : matchAt (.group 1 inner) cs = some (len, caps)) :
    ∃ g, caps = [(1, g)] ∧ g ≠ "" := by
  obtain ⟨pre, rest, _, _, hmat⟩ := matchAt_sound h
  cases hmat with
  | group hr =>
    rw [matches_groupFree hr hg]
    cases pre with
    | nil => rw [matches_nullable hr rfl] at hn; simp at hn
    | cons c0 t =>
      exact ⟨String.mk (c0 :: t), rfl, string_mk_ne_empty (by simp)⟩

theorem not_space_of_digit {c : Char} (h : digitC c = true) : isSpaceB c = false := by
  by_contra hs
  rw [Bool.not_eq_false] at hs
  simp only [isSpaceB, oneOf, List.contains, List.elem_eq_mem,
    decide_eq_true_eq, List.mem_cons, List.not_mem_nil, or_false] at hs
  rcases hs with rfl | rfl | rfl | rfl | rfl | rfl <;> exact absurd h (by decide)

theorem not_space_of_alpha {c : Char} (h : alphaC c = true) : isSpaceB c = false := by
  by_contra hs
  rw [Bool.not_eq_false] at hs
  simp only [isSpaceB, oneOf, List.contains, List.elem_eq_mem,
    decide_eq_true_eq, List.mem_cons, List.not_mem_nil, or_false] at hs
  rcases hs with rfl | rfl | rfl | rfl | rfl | rfl <;> exact absurd h (by decide)

theorem firstB_dateInner1 {c : Char} (h : firstB dateInner1 c = true) :
    digitC c = true := by
  simpa [dateInner1, rcat, firstB, nullable] using h

theorem firstB_dateInner2 {c : Char} (h : firstB dateInner2 c = true) :
    digitC c = true := by
  simpa [dateInner2, rcat, firstB, nullable, sp1] using h

theorem firstB_dateInner3 {c : Char} (h : firstB dateInner3 c = true) :
    alphaC c = true := by
  simpa [dateInner3, rcat, firstB, nullable, sp1] using h

/-- Any value produced by `dateValues` for one of the three date patterns
is nonempty (the match starts with a digit or a letter, which stripping
cannot remove). -/
theorem dateValues_ne_empty {p : Regex} (hp : p ∈ DATE_PATTERNS)
    {text : List Char} {v : String} (hv : v ∈ dateValues p text) : v ≠ "" := by
  simp only [dateValues, List.mem_map] at hv
  obtain ⟨⟨pos, len, caps⟩, hm, hveq⟩ := hv
  obtain ⟨pre, cs2, _, hmt⟩ := findAll_sound hm
  simp only [DATE_PATTERNS, List.mem_cons, List.not_mem_nil, or_false] at hp
  rcases hp with rfl | rfl | rfl
  · obtain ⟨g, hcaps, hg⟩ := @matchAt_group1_strip dateInner1
      (by decide) (by decide)
      (fun c hc => not_space_of_digit (firstB_dateInner1 hc)) _ _ _ hmt
    rw [← hveq, hcaps]
    simpa [getGroup] using hg
  · obtain ⟨g, hcaps, hg⟩ := @matchAt_group1_strip dateInner2
      (by decide) (by decide)
      (fun c hc => not_space_of_digit (firstB_dateInner2 hc)) _ _ _ hmt
    rw [← hveq, hcaps]
    simpa [getGroup] using hg
  · obtain ⟨g, hcaps, hg⟩ := @matchAt_group1_strip dateInner3
      (by decide) (by decide)
      (fun c hc => not_space_of_alpha (firstB_dateInner3 hc)) _ _ _ hmt
    rw [← hveq, hcaps]
    simpa [getGroup] using hg

/-! ## Dictionary lemmas -/

theorem dictLookup_insert (d : Attrs) (k k2 v : String) :
    dictLookup (dictInsert d k v) k2 =
      if k = k2 then some v else dictLookup d k2 := by
  induction d with
  | nil => simp [dictInsert, dictLookup]
  | cons kv t ih =>
    obtain ⟨k0, v0⟩ := kv
    by_cases h0 : k0 = k
    · subst h0
      simp only [dictInsert, if_pos rfl]
      by_cases h2 : k0 = k2
      · subst h2; simp [dictLookup]
      · simp [dictLookup, h2]
    · simp only [dictInsert, if_neg h0]
      by_cases h2 : k0 = k2
      · subst h2
        have hk : ¬ (k = k0) := fun he => h0 he.symm
        simp [dictLookup, hk]
      · simp [dictLookup, h2, ih]

theorem dictLookup_mem {d : Attrs} {k v : String}
    (h : dictLookup d k = some v) : (k, v) ∈ d := by
  induction d with
  | nil => exact absurd h (by simp [dictLookup])
  | cons kv t ih =>
    obtain ⟨k0, v0⟩ := kv
    simp only [dictLookup] at h
    split at h
    · simp only [Option.some.injEq] at h
      rename_i he
      simp [he, h]
    · exact List.mem_cons_of_mem _ (ih h)

/-- All values of the dictionary are nonempty strings. -/
def valsNE (d : Attrs) : Prop := ∀ kv ∈ d, kv.2 ≠ ""

theorem valsNE_nil : valsNE [] := by intro kv h; exact absurd h (by simp)

theorem valsNE_insert {d : Attrs} {k v : String} (hd : valsNE d) (hv : v ≠ "") :
    valsNE (dictInsert d k v) := by
  induction d with
  | nil =>
    intro kv h
    simp only [dictInsert, List.mem_singleton] at h
    simp [h, hv]
  | cons kv0 t ih =>
    obtain ⟨k0, v0⟩ := kv0
    intro kv h
    simp only [dictInsert] at h
    split at h
    · rcases List.mem_cons.mp h with rfl | hm
      · exact hv
      · exact hd kv (List.mem_cons_of_mem _ hm)
    · rcases List.mem_cons.mp h with rfl | hm
      · exact hd (k0, v0) (List.mem_cons_self _ _)
      · exact ih (fun kv2 hkv2 => hd kv2 (List.mem_cons_of_mem _ hkv2)) kv hm

theorem valsNE_update {d2 : Attrs} :
    ∀ {d1 : Attrs}, valsNE d1 → (∀ kv ∈ d2, kv.2 ≠ "") →
      valsNE (dictUpdate d1 d2) := by
  induction d2 with
  | nil => intro d1 h1 _; exact h1
  | cons kv t ih =>
    intro d1 h1 h2
    obtain ⟨k, v⟩ := kv
    have : dictUpdate d1 ((k, v) :: t) = dictUpdate (dictInsert d1 k v) t := rfl
    rw [this]
    exact ih (valsNE_insert h1 (h2 (k, v) (List.mem_cons_self _ _)))
      (fun kv2 hkv2 => h2 kv2 (List.mem_cons_of_mem _ hkv2))

/-! ## Shape of the subject extraction -/

/-- Patterns whose successful anchored matches always carry a nonempty
group 1. -/
def cap1NE (p : Regex) : Prop :=
  ∀ (cs : List Char) (len : Nat) (caps : Caps), matchAt p cs = some (len, caps) →
    ∃ g, getGroup caps 1 = some g ∧ g ≠ ""

theorem cap1NE_folio1 : cap1NE folioPattern1 := by
  intro cs len caps h
  obtain ⟨g, hcaps, hg⟩ := matchAt_folio_shape (by decide) h
  exact ⟨g, by simp [hcaps, getGroup], hg⟩

theorem cap1NE_folio2 : cap1NE folioPattern2 := by
  intro cs len caps h
  obtain ⟨g, hcaps, hg⟩ := matchAt_folio_shape (by decide) h
  exact ⟨g, by simp [hcaps, getGroup], hg⟩

theorem cap1NE_folio3 : cap1NE folioPattern3 := by
  intro cs len caps h
  obtain ⟨g, hcaps, hg⟩ := matchAt_folio_shape (by decide) h
  exact ⟨g, by simp [hcaps, getGroup], hg⟩

theorem cap1NE_folio4 : cap1NE folioPattern4 := by
  intro cs len caps h
  obtain ⟨g, hcaps, hg⟩ := matchAt_folio_shape (by decide) h
  exact ⟨g, by simp [hcaps, getGroup], hg⟩

theorem cap1NE_rut : cap1NE rutPattern := by
  intro cs len caps h
  obtain ⟨g, hcaps, hg⟩ := @matchAt_group1_ne rutInner
    (by decide) (by decide) cs len caps h
  exact ⟨g, by simp [hcaps, getGroup], hg⟩

theorem folioLoop_shape {subject : List Char} :
    ∀ {ps : List Regex}, (∀ p ∈ ps, cap1NE p) →
      folioLoop subject [] ps = [] ∨
      ∃ g, g ≠ "" ∧ folioLoop subject [] ps = [("folio", g)] := by
  intro ps
  induction ps with
  | nil => intro _; left; rfl
  | cons p t ih =>
    intro hps
    rw [folioLoop]
    cases hs : reSearch p subject with
    | none => exact ih fun q hq => hps q (List.mem_cons_of_mem _ hq)
    | some m =>
      obtain ⟨pos, len, caps⟩ := m
      obtain ⟨pre, cs2, _, hmt⟩ := searchFrom_sound hs
      obtain ⟨g, hcap, hg⟩ := hps p (List.mem_cons_self _ _) cs2 len caps hmt
      right
      exact ⟨g, hg, by simp [dictInsert, hcap]⟩

theorem extract_from_subject_shape (subject : List Char) :
    extract_from_subject subject = [] ∨
    (∃ g, g ≠ "" ∧ extract_from_subject subject = [("folio", g)]) ∨
    (∃ r, r ≠ "" ∧ extract_from_subject subject = [("rut_from_subject", r)]) ∨
    (∃ g r, g ≠ "" ∧ r ≠ "" ∧
      extract_from_subject subject = [("folio", g), ("rut_from_subject", r)]) := by
  have hfl := @folioLoop_shape subject folioPatterns
    (by
      intro p hp
      simp only [folioPatterns, List.mem_cons, List.not_mem_nil, or_false] at hp
      rcases hp with rfl | rfl | rfl | rfl
      · exact cap1NE_folio1
      · exact cap1NE_folio2
      · exact cap1NE_folio3
      · exact cap1NE_folio4)
  rw [extract_from_subject.eq_def]
  cases hr : reSearch rutPattern subject with
  | none =>
    rcases hfl with hfl | ⟨g, hg, hfl⟩
    · left; simp [hfl]
    · right; left; exact ⟨g, hg, by simp [hfl]⟩
  | some m =>
    obtain ⟨pos, len, caps⟩ := m
    obtain ⟨pre, cs2, _, hmt⟩ := searchFrom_sound hr
    obtain ⟨r, hcap, hrne⟩ := cap1NE_rut cs2 len caps hmt
    rcases hfl with hfl | ⟨g, hg, hfl⟩
    · right; right; left
      exact ⟨r, hrne, by simp [hfl, dictInsert, hcap]⟩
    · right; right; right
      refine ⟨g, r, hg, hrne, ?_⟩
      simp only [hfl, hcap, Option.getD_some]
      simp [dictInsert]

/-! ## Characterisation of the date-slot filling -/

/-- The dictionary built from optional start and end slot values. -/
def mkDates : Option String → Option String → Attrs
  | none, none => []
  | some a, none => [("billing_period_start", a)]
  | none, some b => [("billing_period_end", b)]
  | some a, some b => [("billing_period_start", a), ("billing_period_end", b)]

theorem datesLoop_stop {d : Attrs} {i : Nat} (h : 2 ≤ i) :
    ∀ vs : List String, datesLoop d i vs = d := by
  intro vs
  cases vs with
  | nil => rfl
  | cons v rest => rw [datesLoop, if_pos h]

theorem datesLoop_mkDates (s e : Option String)
    (he : e.isSome = true → s.isSome = true) (vs : List String) :
    datesLoop (mkDates s e) 0 vs =
      mkDates (s.orElse fun _ => vs.head?) (e.orElse fun _ => vs[1]?) := by
  cases s with
  | none =>
    cases e with
    | some b => exact absurd (he rfl) (by simp)
    | none =>
      cases vs with
      | nil => rfl
      | cons v rest =>
        cases rest with
        | nil =>
          simp [datesLoop, dateKeys, mkDates, dictLookup, dictInsert]
        | cons w rest2 =>
          simp [datesLoop, dateKeys, mkDates, dictLookup, dictInsert,
            datesLoop_stop]
  | some a =>
    cases e with
    | none =>
      cases vs with
      | nil => rfl
      | cons v rest =>
        cases rest with
        | nil =>
          simp [datesLoop, dateKeys, mkDates, dictLookup, dictInsert]
        | cons w rest2 =>
          simp [datesLoop, dateKeys, mkDates, dictLookup, dictInsert,
            datesLoop_stop]
    | some b =>
      cases vs with
      | nil => rfl
      | cons v rest =>
        cases rest with
        | nil =>
          simp [datesLoop, dateKeys, mkDates, dictLookup, dictInsert]
        | cons w rest2 =>
          simp [datesLoop, dateKeys, mkDates, dictLookup, dictInsert,
            datesLoop_stop]

/-- The start slot, as the specification reads it: the first match of the
first date pattern that has at least one match. -/
def datesStartSpec (text : List Char) : Option String :=
  (DATE_PATTERNS.filterMap fun p => (dateValues p text).head?).head?

/-- The end slot, as the code fills it: the second match of the first date
pattern that has at least two matches. -/
def datesEndSpec (text : List Char) : Option String :=
  (DATE_PATTERNS.filterMap fun p => (dateValues p text)[1]?).head?

theorem filterMap3_head {α β : Type} (f : α → Option β) (a b c : α) :
    (([a, b, c].filterMap f).head? : Option β) =
      (f a).orElse fun _ => (f b).orElse fun _ => f c := by
  cases ha : f a <;> cases hb : f b <;> cases hc : f c <;>
    simp [List.filterMap, ha, hb, hc, Option.orElse]

theorem orElse_left_assoc {α : Type} (o1 o2 o3 : Option α) :
    ((o1.orElse fun _ => o2).orElse fun _ => o3) =
      o1.orElse fun _ => o2.orElse fun _ => o3 := by
  cases o1 <;> cases o2 <;> cases o3 <;> simp [Option.orElse]

theorem getElem1_isSome_head {l : List String} (h : l[1]?.isSome = true) :
    l.head?.isSome = true := by
  cases l with
  | nil => simp at h
  | cons v rest => simp

theorem none_orElseF {α : Type} (f : Unit → Option α) :
    (none : Option α).orElse f = f () := rfl

theorem orElse_isSomeF {α : Type} (x : Option α) (f : Unit → Option α) :
    (x.orElse f).isSome = (x.isSome || (f ()).isSome) := by
  cases x <;> rfl

/-- The central characterisation of `_extract_dates`: the start slot holds
the first match of the first pattern with at least one match; the end slot
holds the second match of the first pattern with at least two matches. -/
theorem extract_dates_eq (text : List Char) :
    extract_dates text = mkDates (datesStartSpec text) (datesEndSpec text) := by
  have h0 : extract_dates text =
      datesLoop (datesLoop (datesLoop (mkDates none none) 0
        (dateValues datePattern1 text)) 0
        (dateValues datePattern2 text)) 0
        (dateValues datePattern3 text) := rfl
  rw [h0, datesLoop_mkDates none none (by simp)]
  have he1 : ((none : Option String).orElse
        fun _ => (dateValues datePattern1 text)[1]?).isSome = true →
      ((none : Option String).orElse
        fun _ => (dateValues datePattern1 text).head?).isSome = true := by
    rw [none_orElseF, none_orElseF]
    exact getElem1_isSome_head
  rw [datesLoop_mkDates _ _ he1]
  have he2 : (((none : Option String).orElse
        fun _ => (dateValues datePattern1 text)[1]?).orElse
        fun _ => (dateValues datePattern2 text)[1]?).isSome = true →
      (((none : Option String).orElse
        fun _ => (dateValues datePattern1 text).head?).orElse
        fun _ => (dateValues datePattern2 text).head?).isSome = true := by
    rw [none_orElseF, none_orElseF, orElse_isSomeF, orElse_isSomeF]
    intro h
    rcases Bool.or_eq_true_iff.mp h with h1 | h2
    · rw [getElem1_isSome_head h1]
      rfl
    · rw [getElem1_isSome_head h2, Bool.or_true]
  rw [datesLoop_mkDates _ _ he2]
  rw [datesStartSpec, datesEndSpec]
  have hs := filterMap3_head (fun p => (dateValues p text).head?)
    datePattern1 datePattern2 datePattern3
  have hee := filterMap3_head (fun p => (dateValues p text)[1]?)
    datePattern1 datePattern2 datePattern3
  rw [DATE_PATTERNS, hs, hee]
  rw [none_orElseF, none_orElseF, orElse_left_assoc, orElse_left_assoc]

/-! ## Loop-to-specification equivalences for total amount and address -/

/-- The amount value the loop reads in the 60-character window after one
label occurrence (`none` when the window has no amount, or the raw value
strips to the empty string). -/
def windowAmount (text : List Char) (m : Nat × Nat × Caps) : Option String :=
  match reSearch amountRe ((text.drop (m.1 + m.2.1)).take 60) with
  | some (_, _, caps) =>
    let raw := pyStripS (pyOrStr (getGroup caps 1) (getGroup caps 2))
    if raw ≠ "" then some raw else none
  | none => none

/-- The fallback value: first currency amount anywhere in the text. -/
def bareAmount (text : List Char) : Option String :=
  match reSearch amountRe text with
  | some (_, _, caps) =>
    let raw := pyStripS (pyOrStr (getGroup caps 1) (getGroup caps 2))
    if raw ≠ "" then some raw else none
  | none => none

/-- Declarative reading of `_extract_total_amount`: the amount in the
window of the first label occurrence whose window holds one, else the
first bare amount in the whole text. -/
def totalSpec (text : List Char) : Option String :=
  (((findAll totalLabels text).filterMap (windowAmount text)).head?).orElse
    fun _ => bareAmount text

theorem totalFromLabels_eq (text : List Char) :
    ∀ ms : List (Nat × Nat × Caps),
      totalFromLabels text ms = (ms.filterMap (windowAmount text)).head? := by
  intro ms
  induction ms with
  | nil => rfl
  | cons m rest ih =>
    obtain ⟨pos, len, caps0⟩ := m
    cases hs : reSearch amountRe ((text.drop (pos + len)).take 60) with
    | none =>
      have hL : totalFromLabels text ((pos, len, caps0) :: rest) =
          totalFromLabels text rest := by
        rw [totalFromLabels, hs]
      have hw : windowAmount text (pos, len, caps0) = none := by
        simp [windowAmount, hs]
      rw [hL, List.filterMap_cons, hw, ih]
    | some q =>
      obtain ⟨p2, l2, caps⟩ := q
      have hL : totalFromLabels text ((pos, len, caps0) :: rest) =
          (if pyStripS (pyOrStr (getGroup caps 1) (getGroup caps 2)) ≠ ""
            then some (pyStripS (pyOrStr (getGroup caps 1) (getGroup caps 2)))
            else totalFromLabels text rest) := by
        rw [totalFromLabels, hs]
      have hw : windowAmount text (pos, len, caps0) =
          (if pyStripS (pyOrStr (getGroup caps 1) (getGroup caps 2)) ≠ ""
            then some (pyStripS (pyOrStr (getGroup caps 1) (getGroup caps 2)))
            else none) := by
        simp [windowAmount, hs]
      rw [hL, List.filterMap_cons, hw]
      by_cases hr : pyStripS (pyOrStr (getGroup caps 1) (getGroup caps 2)) ≠ ""
      · rw [if_pos hr, if_pos hr]
        rfl
      · rw [if_neg hr, if_neg hr, ih]

theorem extract_total_amount_eq (text : List Char) :
    extract_total_amount text = totalSpec text := by
  rw [extract_total_amount, totalFromLabels_eq, totalSpec]
  cases h : ((findAll totalLabels text).filterMap (windowAmount text)).head? with
  | some v => rfl
  | none =>
    rw [none_orElseF]
    rw [bareAmount]

/-- The address value the loop reads after one label occurrence: the first
run of 5 to 120 non-newline characters anywhere in the remaining text,
collapsed and stripped (`none` when absent or empty after stripping). -/
def lineValue (text : List Char) (m : Nat × Nat × Caps) : Option String :=
  match reSearch addressLinePattern (text.drop (m.1 + m.2.1)) with
  | some (_, _, caps) =>
    let value := pyStripS (String.mk (collapseWs ((getGroup caps 1).getD "").data))
    if value ≠ "" then some value else none
  | none => none

theorem addressFromLabels_eq (text : List Char) :
    ∀ ms : List (Nat × Nat × Caps),
      addressFromLabels text ms = (ms.filterMap (lineValue text)).head? := by
  intro ms
  induction ms with
  | nil => rfl
  | cons m rest ih =>
    obtain ⟨pos, len, caps0⟩ := m
    cases hs : reSearch addressLinePattern (text.drop (pos + len)) with
    | none =>
      have hL : addressFromLabels text ((pos, len, caps0) :: rest) =
          addressFromLabels text rest := by
        rw [addressFromLabels, hs]
      have hw : lineValue text (pos, len, caps0) = none := by
        simp [lineValue, hs]
      rw [hL, List.filterMap_cons, hw, ih]
    | some q =>
      obtain ⟨p2, l2, caps⟩ := q
      have hL : addressFromLabels text ((pos, len, caps0) :: rest) =
          (if pyStripS (String.mk (collapseWs ((getGroup caps 1).getD "").data)) ≠ ""
            then some (pyStripS (String.mk (collapseWs ((getGroup caps 1).getD "").data)))
            else addressFromLabels text rest) := by
        rw [addressFromLabels, hs]
      have hw : lineValue text (pos, len, caps0) =
          (if pyStripS (String.mk (collapseWs ((getGroup caps 1).getD "").data)) ≠ ""
            then some (pyStripS (String.mk (collapseWs ((getGroup caps 1).getD "").data)))
            else none) := by
        simp [lineValue, hs]
      rw [hL, List.filterMap_cons, hw]
      by_cases hr :
          pyStripS (String.mk (collapseWs ((getGroup caps 1).getD "").data)) ≠ ""
      · rw [if_pos hr, if_pos hr]
        rfl
      · rw [if_neg hr, if_neg hr, ih]

theorem extract_address_eq (text : List Char) :
    extract_address text =
      ((findAll addressLabels text).filterMap (lineValue text)).head? := by
  rw [extract_address, addressFromLabels_eq]

/-! ## The claims as the specification states them (for refutation) -/

/-- Date extraction as claim C2 states it: the first two matches in
pattern-iteration order across the union of all three patterns fill the
two slots. -/
def datesClaimed (text : List Char) : Attrs :=
  let union := DATE_PATTERNS.flatMap fun p => dateValues p text
  mkDates union.head? union[1]?

/-- Address extraction as claim C6 states it: the remainder of the current
line after the first label match, bounded by end of line or 120 characters
and only if at least 5 characters long, collapsed and stripped. -/
def addressClaimed (text : List Char) : Option String :=
  match reSearch addressLabels text with
  | some (pos, len, _) =>
    let line := (text.drop (pos + len)).takeWhile notNLC
    if 5 ≤ line.length then
      let value := pyStripS (String.mk (collapseWs (line.take 120)))
      if value ≠ "" then some value else none
    else none
  | none => none

/-! ## The exception boundary, with fallible stages -/

/-- The pipeline of `extract_attributes_from_email_body` with fallible
stages, mirroring the `try` body statement by statement: a failing stage
makes the function return the attributes accumulated up to that point
(the behaviour of the `except` clause around a mutated dict). -/
def extractAttributesWith {ε : Type}
    (fS : List Char → Except ε Attrs)
    (fD : List Char → Except ε Attrs)
    (fT : List Char → Except ε (Option String))
    (fC : List Char → Except ε (Option String))
    (fA : List Char → Except ε (Option String))
    (subject body : String) : Attrs :=
  let attributes : Attrs := []
  match fS subject.data with
  | .error _ => attributes
  | .ok subjectAttrs =>
    let attributes := dictUpdate attributes subjectAttrs
    let combined := combinedText subject body
    match fD combined with
    | .error _ => attributes
    | .ok dates =>
      let attributes := dictUpdate attributes dates
      match fT combined with
      | .error _ => attributes
      | .ok total =>
        let attributes :=
          match total with
          | some t =>
            if strTruthy t then dictInsert attributes "total_amount" t
            else attributes
          | none => attributes
        match fC combined with
        | .error _ => attributes
        | .ok customer =>
          let attributes :=
            match customer with
            | some c =>
              if strTruthy c then dictInsert attributes "customer_number" c
              else attributes
            | none => attributes
          match fA combined with
          | .error _ => attributes
          | .ok address =>
            match address with
            | some a =>
              if strTruthy a then dictInsert attributes "address" a
              else attributes
            | none => attributes

/-- Run a list of fallible accumulation steps; the first failure stops the
run, keeping what was accumulated before it. -/
def accumUntilError {ε : Type} : Attrs → List (Attrs → Except ε Attrs) → Attrs
  | d, [] => d
  | d, f :: fs =>
    match f d with
    | .error _ => d
    | .ok d2 => accumUntilError d2 fs

/-- The five accumulation steps of the pipeline, over given stage results. -/
def pipelineSteps {ε : Type}
    (fS : List Char → Except ε Attrs)
    (fD : List Char → Except ε Attrs)
    (fT : List Char → Except ε (Option String))
    (fC : List Char → Except ε (Option String))
    (fA : List Char → Except ε (Option String))
    (subject body : String) : List (Attrs → Except ε Attrs) :=
  [fun d => (fS subject.data).map fun m => dictUpdate d m,
   fun d => (fD (combinedText subject body)).map fun m => dictUpdate d m,
   fun d => (fT (combinedText subject body)).map fun t =>
     match t with
     | some v => if strTruthy v then dictInsert d "total_amount" v else d
     | none => d,
   fun d => (fC (combinedText subject body)).map fun t =>
     match t with
     | some v => if strTruthy v then dictInsert d "customer_number" v else d
     | none => d,
   fun d => (fA (combinedText subject body)).map fun t =>
     match t with
     | some v => if strTruthy v then dictInsert d "address" v else d
     | none => d]

/-- The calls of the extractor over a batch of messages (the way the
sensor layer invokes it, once per fetched email). -/
def extractBatch (inputs : List (String × String)) : List Attrs :=
  inputs.map fun p => extract_attributes_from_email_body p.1 p.2

/-! ## Lookups through the aggregation pipeline -/

/-- The aggregation pipeline, unfolded: subject attributes first, then the
four body-derived extractions over the capped combined text. -/
theorem extract_unfold (s b : String) :
    extract_attributes_from_email_body s b =
      (let attributes := dictUpdate (dictUpdate []
          (extract_from_subject s.data)) (extract_dates (combinedText s b))
       let attributes :=
         match extract_total_amount (combinedText s b) with
         | some t =>
           if strTruthy t then dictInsert attributes "total_amount" t
           else attributes
         | none => attributes
       let attributes :=
         match extract_customer_number (combinedText s b) with
         | some c =>
           if strTruthy c then dictInsert attributes "customer_number" c
           else attributes
         | none => attributes
       match extract_address (combinedText s b) with
       | some a =>
         if strTruthy a then dictInsert attributes "address" a else attributes
       | none => attributes) := rfl

theorem dictLookup_condInsert (d : Attrs) (k2 k : String) (o : Option String)
    (hne : k2 ≠ k) :
    dictLookup
      (match o with
       | some v => if strTruthy v then dictInsert d k2 v else d
       | none => d) k = dictLookup d k := by
  cases o with
  | none => rfl
  | some v =>
    by_cases ht : strTruthy v
    · simp [ht, dictLookup_insert, hne]
    · simp [ht]

theorem base_date_lookup_none (s : List Char) (k : String)
    (hk1 : k ≠ "folio") (hk2 : k ≠ "rut_from_subject") :
    dictLookup (dictUpdate [] (extract_from_subject s)) k = none := by
  rcases extract_from_subject_shape s with h | ⟨g, _, h⟩ | ⟨r, _, h⟩ |
      ⟨g, r, _, _, h⟩ <;>
    rw [h] <;>
    simp [dictUpdate, dictInsert, dictLookup, hk1.symm, hk2.symm]

theorem datesEndSpec_isSome {text : List Char}
    (h : (datesEndSpec text).isSome = true) :
    (datesStartSpec text).isSome = true := by
  rw [datesEndSpec, DATE_PATTERNS, filterMap3_head] at h
  rw [datesStartSpec, DATE_PATTERNS, filterMap3_head]
  rw [orElse_isSomeF, orElse_isSomeF] at h
  rw [orElse_isSomeF, orElse_isSomeF]
  rcases Bool.or_eq_true_iff.mp h with h1 | h23
  · rw [getElem1_isSome_head h1]
    rfl
  · rcases Bool.or_eq_true_iff.mp h23 with h2 | h3
    · rw [getElem1_isSome_head h2]
      simp
    · rw [getElem1_isSome_head h3]
      simp

/-- The two date slots of the final attribute map are exactly the
specification slots computed over the combined text. -/
theorem extract_date_lookups (s b : String) :
    dictLookup (extract_attributes_from_email_body s b) "billing_period_start" =
      datesStartSpec (combinedText s b) ∧
    dictLookup (extract_attributes_from_email_body s b) "billing_period_end" =
      datesEndSpec (combinedText s b) := by
  have hu : extract_attributes_from_email_body s b =
      (let attributes := dictUpdate (dictUpdate []
          (extract_from_subject s.data)) (extract_dates (combinedText s b))
       let attributes :=
         match extract_total_amount (combinedText s b) with
         | some t =>
           if strTruthy t then dictInsert attributes "total_amount" t
           else attributes
         | none => attributes
       let attributes :=
         match extract_customer_number (combinedText s b) with
         | some c =>
           if strTruthy c then dictInsert attributes "customer_number" c
           else attributes
         | none => attributes
       match extract_address (combinedText s b) with
       | some a =>
         if strTruthy a then dictInsert attributes "address" a else attributes
       | none => attributes) := rfl
  rw [hu]
  simp only
  rw [dictLookup_condInsert _ _ _ _ (by decide),
    dictLookup_condInsert _ _ _ _ (by decide),
    dictLookup_condInsert _ _ _ _ (by decide),
    dictLookup_condInsert _ _ _ _ (by decide),
    dictLookup_condInsert _ _ _ _ (by decide),
    dictLookup_condInsert _ _ _ _ (by decide)]
  rw [extract_dates_eq]
  have hbs := base_date_lookup_none s.data "billing_period_start"
    (by decide) (by decide)
  have hbe := base_date_lookup_none s.data "billing_period_end"
    (by decide) (by decide)
  cases hS : datesStartSpec (combinedText s b) with
  | none =>
    cases hE : datesEndSpec (combinedText s b) with
    | none => exact ⟨hbs, hbe⟩
    | some eb =>
      constructor
      · simp only [mkDates, dictUpdate, List.foldl]
        rw [dictLookup_insert]
        simp only [if_neg (by decide : ¬ ("billing_period_end" = "billing_period_start"))]
        exact hbs
      · simp only [mkDates, dictUpdate, List.foldl]
        rw [dictLookup_insert]
        simp
  | some sa =>
    cases hE : datesEndSpec (combinedText s b) with
    | none =>
      constructor
      · simp only [mkDates, dictUpdate, List.foldl]
        rw [dictLookup_insert]
        simp
      · simp only [mkDates, dictUpdate, List.foldl]
        rw [dictLookup_insert]
        simp only [if_neg (by decide : ¬ ("billing_period_start" = "billing_period_end"))]
        exact hbe
    | some eb =>
      constructor
      · simp only [mkDates, dictUpdate, List.foldl]
        rw [dictLookup_insert]
        simp only [if_neg (by decide : ¬ ("billing_period_end" = "billing_period_start"))]
        rw [dictLookup_insert]
        simp
      · simp only [mkDates, dictUpdate, List.foldl]
        rw [dictLookup_insert]
        simp

/-! ## Claim theorems -/

/-- C1: `extract_attributes_from_email_body` is a total function into
attribute dictionaries, and it instantiates the fallible pipeline with
always-succeeding stages; for arbitrary fallible stages, the pipeline
returns exactly the attributes accumulated by the stages that ran before
the first failure (the `try/except` boundary of the source). -/
theorem C1_exception_boundary :
    (∀ subject body : String,
      extract_attributes_from_email_body subject body =
        @extractAttributesWith Unit
          (fun cs => .ok (extract_from_subject cs))
          (fun cs => .ok (extract_dates cs))
          (fun cs => .ok (extract_total_amount cs))
          (fun cs => .ok (extract_customer_number cs))
          (fun cs => .ok (extract_address cs)) subject body) ∧
    (∀ (ε : Type) (fS fD : List Char → Except ε Attrs)
        (fT fC fA : List Char → Except ε (Option String))
        (subject body : String),
      extractAttributesWith fS fD fT fC fA subject body =
        accumUntilError [] (pipelineSteps fS fD fT fC fA subject body)) := by
  constructor
  · intro subject body
    rfl
  · intro ε fS fD fT fC fA subject body
    cases hS : fS subject.data with
    | error e =>
      simp [extractAttributesWith, pipelineSteps, accumUntilError,
        Except.map, hS]
    | ok m =>
      cases hD : fD (combinedText subject body) with
      | error e =>
        simp [extractAttributesWith, pipelineSteps, accumUntilError,
          Except.map, hS, hD]
      | ok dts =>
        cases hT : fT (combinedText subject body) with
        | error e =>
          simp [extractAttributesWith, pipelineSteps, accumUntilError,
            Except.map, hS, hD, hT]
        | ok tot =>
          cases hC : fC (combinedText subject body) with
          | error e =>
            simp [extractAttributesWith, pipelineSteps, accumUntilError,
              Except.map, hS, hD, hT, hC]
          | ok cust =>
            cases hA : fA (combinedText subject body) with
            | error e =>
              simp [extractAttributesWith, pipelineSteps, accumUntilError,
                Except.map, hS, hD, hT, hC, hA]
            | ok addr =>
              simp [extractAttributesWith, pipelineSteps, accumUntilError,
                Except.map, hS, hD, hT, hC, hA]

/-- C2 (counterexample): on a text holding one numeric date and one
Spanish long-form date, the union reading of the claim puts the Spanish
date in the end slot, but the code leaves the end slot empty — the second
first occurrence of the second pattern is positionally tied to the start slot, which
is already filled, so it is skipped rather than moved to the open slot. -/
theorem C2_counterexample :
    dictLookup (extract_dates ("01/03/2024 luego 5 de marzo de 2024").data)
      "billing_period_end" = none ∧
    dictLookup (datesClaimed ("01/03/2024 luego 5 de marzo de 2024").data)
      "billing_period_end" = some "5 de marzo de 2024" := by
  constructor
  · decide
  · decide

/-- C2 (amended): occurrences are indexed per pattern, not across the
union: the start slot holds the first occurrence of the first pattern
having at least one occurrence, and the end slot the second occurrence of
the first pattern having at least two; a filled slot is never
overwritten. -/
theorem C2_dates_positional (text : List Char) :
    extract_dates text = mkDates (datesStartSpec text) (datesEndSpec text) :=
  extract_dates_eq text

/-- C9: extraction is deterministic and stateless — in a batch of calls,
each result is the extractor applied to its own input alone, independent
of the calls before and after it. -/
theorem C9_batch_independence :
    ∀ (pre post : List (String × String)) (s b : String),
      extractBatch (pre ++ (s, b) :: post) =
        extractBatch pre ++
          extract_attributes_from_email_body s b :: extractBatch post := by
  intro pre post s b
  simp [extractBatch]

/-- C10: whenever the returned map holds `billing_period_end`, it also
holds `billing_period_start`. -/
theorem C10_end_needs_start :
    ∀ s b : String,
      (dictLookup (extract_attributes_from_email_body s b)
        "billing_period_end").isSome = true →
      (dictLookup (extract_attributes_from_email_body s b)
        "billing_period_start").isSome = true := by
  intro s b h
  rw [(extract_date_lookups s b).2] at h
  rw [(extract_date_lookups s b).1]
  exact datesEndSpec_isSome h

theorem C10_end_needs_start_witness :
    (dictLookup (extract_attributes_from_email_body "" "01/03/2024 al 31/03/2024")
      "billing_period_start").isSome = true :=
  C10_end_needs_start "" "01/03/2024 al 31/03/2024" (by decide)

/-- C4: total-amount extraction equals its declarative reading — the
amount in the 60-character window of the first label occurrence whose
window holds one (falling back to the first bare amount) — and the
specification example yields `45.990`, without the dollar sign. -/
theorem C4_total_amount :
    (∀ text : List Char, extract_total_amount text = totalSpec text) ∧
    dictLookup (extract_attributes_from_email_body "" "Total a pagar: $45.990")
      "total_amount" = some "45.990" :=
  ⟨extract_total_amount_eq, by decide⟩

/-- C5: when no label occurrence has an amount in its trailing window,
total-amount extraction falls back to the first bare currency amount in
the whole text; the specification example with no label yields `12.500`. -/
theorem C5_fallback :
    (∀ text : List Char,
      (∀ m ∈ findAll totalLabels text, windowAmount text m = none) →
      extract_total_amount text = bareAmount text) ∧
    dictLookup (extract_attributes_from_email_body "" "Saldo: 12.500 CLP")
      "total_amount" = some "12.500" := by
  constructor
  · intro text h
    rw [extract_total_amount_eq, totalSpec]
    have hnil : (findAll totalLabels text).filterMap (windowAmount text) = [] :=
      List.filterMap_eq_nil_iff.mpr h
    rw [hnil]
    rfl
  · decide

theorem C5_fallback_witness :
    extract_total_amount ("Saldo: 12.500 CLP").data =
      bareAmount ("Saldo: 12.500 CLP").data :=
  C5_fallback.1 _ (by decide)

/-- C6 (counterexample): when fewer than five characters remain on the
line of the label itself, the code does not give up — the line pattern is searched
in the whole remaining text, so the captured value comes from a later
line, contradicting the current-line-only reading of the claim. -/
theorem C6_counterexample :
    dictLookup (extract_attributes_from_email_body ""
      "Dirección: ab\nCalle Falsa 123") "address" = some "Calle Falsa 123" ∧
    addressClaimed (combinedText "" "Dirección: ab\nCalle Falsa 123") = none := by
  constructor
  · decide
  · decide

/-- C6 (amended): address extraction scans label matches in order and,
for each, searches the entire remaining text for the first run of 5 to 120
non-newline characters — the remainder of the current line when it has at
least 5 characters, otherwise a later line — collapses whitespace, trims,
and returns the first nonempty value; the specification example holds. -/
theorem C6_address :
    (∀ text : List Char,
      extract_address text =
        ((findAll addressLabels text).filterMap (lineValue text)).head?) ∧
    dictLookup (extract_attributes_from_email_body ""
      "Dirección: Av. Siempre Viva 742, Springfield\nOtro texto") "address" =
      some "Av. Siempre Viva 742, Springfield" :=
  ⟨extract_address_eq, by decide⟩

/-- The folio value as the claim reads it: the first of the four label
patterns (in priority order) that matches anywhere in the subject
contributes the capture of its first match. -/
def folioSpec (subject : List Char) : Option String :=
  (folioPatterns.filterMap fun p =>
    (reSearch p subject).map fun m => (getGroup m.2.2 1).getD "").head?

theorem folioLoop_lookup (subject : List Char) :
    ∀ ps : List Regex,
      dictLookup (folioLoop subject [] ps) "folio" =
        (ps.filterMap fun p =>
          (reSearch p subject).map fun m => (getGroup m.2.2 1).getD "").head? := by
  intro ps
  induction ps with
  | nil => rfl
  | cons p t ih =>
    rw [folioLoop, List.filterMap_cons]
    cases hs : reSearch p subject with
    | none => simpa using ih
    | some m =>
      obtain ⟨pos, len, caps⟩ := m
      simp [dictInsert, dictLookup]

theorem extract_from_subject_folio (subject : List Char) :
    dictLookup (extract_from_subject subject) "folio" = folioSpec subject := by
  rw [extract_from_subject.eq_def, folioSpec]
  cases hr : reSearch rutPattern subject with
  | none => exact folioLoop_lookup subject folioPatterns
  | some m =>
    obtain ⟨pos, len, caps⟩ := m
    rw [dictLookup_insert,
      if_neg (by decide : ¬ ("rut_from_subject" = "folio"))]
    exact folioLoop_lookup subject folioPatterns

/-- C7: the folio key of the subject extraction is the first match of the
first of the four label patterns (folio, número, boleta, factura) that
matches; a subject with `Folio: 123456` yields folio `123456`, and a
subject matching no pattern yields a map without the folio key. -/
theorem C7_folio :
    (∀ subject : List Char,
      dictLookup (extract_from_subject subject) "folio" = folioSpec subject) ∧
    dictLookup (extract_attributes_from_email_body "Folio: 123456" "") "folio" =
      some "123456" ∧
    dictLookup (extract_attributes_from_email_body "Sin datos" "") "folio" =
      none :=
  ⟨extract_from_subject_folio, by decide, by decide⟩

/-! ## No returned value is the empty string -/

theorem valsNE_subject (s : List Char) : valsNE (extract_from_subject s) := by
  rcases extract_from_subject_shape s with h | ⟨g, hg, h⟩ | ⟨r, hr, h⟩ |
      ⟨g, r, hg, hr, h⟩ <;> rw [h]
  · exact valsNE_nil
  · intro kv hkv
    simp only [List.mem_singleton] at hkv
    rw [hkv]
    exact hg
  · intro kv hkv
    simp only [List.mem_singleton] at hkv
    rw [hkv]
    exact hr
  · intro kv hkv
    rcases List.mem_cons.mp hkv with rfl | hkv2
    · exact hg
    · simp only [List.mem_singleton] at hkv2
      rw [hkv2]
      exact hr

theorem valsNE_datesLoop :
    ∀ (vs : List String) (d : Attrs) (i : Nat),
      valsNE d → (∀ v ∈ vs, v ≠ "") → valsNE (datesLoop d i vs) := by
  intro vs
  induction vs with
  | nil => intro d i hd _; exact hd
  | cons v rest ih =>
    intro d i hd hvs
    rw [datesLoop]
    split
    · exact hd
    · apply ih
      · split
        · exact valsNE_insert hd (hvs v (List.mem_cons_self _ _))
        · exact hd
      · intro w hw
        exact hvs w (List.mem_cons_of_mem _ hw)

theorem valsNE_dates (text : List Char) : valsNE (extract_dates text) := by
  have h0 : extract_dates text =
      datesLoop (datesLoop (datesLoop [] 0
        (dateValues datePattern1 text)) 0
        (dateValues datePattern2 text)) 0
        (dateValues datePattern3 text) := rfl
  rw [h0]
  apply valsNE_datesLoop
  · apply valsNE_datesLoop
    · apply valsNE_datesLoop
      · exact valsNE_nil
      · intro v hv
        exact dateValues_ne_empty (by simp [DATE_PATTERNS] : datePattern1 ∈ DATE_PATTERNS) hv
    · intro v hv
      exact dateValues_ne_empty (by simp [DATE_PATTERNS] : datePattern2 ∈ DATE_PATTERNS) hv
  · intro v hv
    exact dateValues_ne_empty (by simp [DATE_PATTERNS] : datePattern3 ∈ DATE_PATTERNS) hv

theorem valsNE_condInsert {d : Attrs} (hd : valsNE d) (k : String)
    (o : Option String) :
    valsNE
      (match o with
       | some v => if strTruthy v then dictInsert d k v else d
       | none => d) := by
  cases o with
  | none => exact hd
  | some v =>
    show valsNE (if strTruthy v = true then dictInsert d k v else d)
    by_cases ht : strTruthy v = true
    · rw [if_pos ht]
      exact valsNE_insert hd (by simpa [strTruthy] using ht)
    · rw [if_neg ht]
      exact hd

theorem valsNE_extract (s b : String) :
    valsNE (extract_attributes_from_email_body s b) := by
  have hu : extract_attributes_from_email_body s b =
      (let attributes := dictUpdate (dictUpdate []
          (extract_from_subject s.data)) (extract_dates (combinedText s b))
       let attributes :=
         match extract_total_amount (combinedText s b) with
         | some t =>
           if strTruthy t then dictInsert attributes "total_amount" t
           else attributes
         | none => attributes
       let attributes :=
         match extract_customer_number (combinedText s b) with
         | some c =>
           if strTruthy c then dictInsert attributes "customer_number" c
           else attributes
         | none => attributes
       match extract_address (combinedText s b) with
       | some a =>
         if strTruthy a then dictInsert attributes "address" a else attributes
       | none => attributes) := rfl
  rw [hu]
  simp only
  apply valsNE_condInsert
  apply valsNE_condInsert
  apply valsNE_condInsert
  apply valsNE_update
  · apply valsNE_update valsNE_nil
    exact valsNE_subject s.data
  · exact valsNE_dates (combinedText s b)

/-- C8: every value present in the returned attribute map is a nonempty
string — a missing field is signalled only by the absence of its key. -/
theorem C8_no_empty_values :
    ∀ (s b k v : String),
      dictLookup (extract_attributes_from_email_body s b) k = some v →
      v ≠ "" := by
  intro s b k v h
  exact valsNE_extract s b (k, v) (dictLookup_mem h)

theorem C8_no_empty_values_witness : ("123456" : String) ≠ "" :=
  C8_no_empty_values "Folio: 123456" "" "folio" "123456" (by decide)

/-! ## The truncation cap (claim C3) -/

/-- `small` occurs as a contiguous segment of `big` (the value was matched
somewhere inside `big`). -/
def containsSeg (small big : List Char) : Prop :=
  ∃ p q, big = p ++ small ++ q

theorem containsSeg_mem {small big : List Char} (h : containsSeg small big)
    {c : Char} (hc : c ∈ small) : c ∈ big := by
  obtain ⟨p, q, rfl⟩ := h
  simp [hc]

/-- Subject used to refute the claim: 15,000 junk characters (which no
pattern can match into) followed by a folio marker, placing the folio
match entirely beyond the 15,000-character cap of the combined text. -/
def bigSubject : String :=
  String.mk (List.replicate 15000 '#') ++ "Folio: 1234567"

theorem bigSubject_data :
    bigSubject.data = List.replicate 15000 '#' ++ ("Folio: 1234567").data := rfl

theorem combinedText_big (b : String) :
    combinedText bigSubject b = List.replicate 15000 '#' := by
  show (if (bigSubject.data ++ '\n' :: '\n' :: b.data).length > 15000
        then (bigSubject.data ++ '\n' :: '\n' :: b.data).take 15000
        else bigSubject.data ++ '\n' :: '\n' :: b.data) =
    List.replicate 15000 '#'
  have h14 : ("Folio: 1234567").data.length = 14 := rfl
  have hlen : (bigSubject.data ++ '\n' :: '\n' :: b.data).length =
      15016 + b.data.length := by
    rw [bigSubject_data, List.append_assoc, List.length_append,
      List.length_replicate, List.length_append, h14, List.length_cons,
      List.length_cons]
    omega
  rw [if_pos (show (bigSubject.data ++ '\n' :: '\n' :: b.data).length > 15000
    by rw [hlen]; omega)]
  rw [bigSubject_data, List.append_assoc]
  have h := List.take_left (List.replicate 15000 '#')
    (("Folio: 1234567").data ++ '\n' :: '\n' :: b.data)
  rw [List.length_replicate] at h
  exact h

theorem extract_dates_empty_values {text : List Char}
    (h1 : dateValues datePattern1 text = [])
    (h2 : dateValues datePattern2 text = [])
    (h3 : dateValues datePattern3 text = []) :
    extract_dates text = [] := by
  have h0 : extract_dates text =
      datesLoop (datesLoop (datesLoop [] 0 (dateValues datePattern1 text)) 0
        (dateValues datePattern2 text)) 0 (dateValues datePattern3 text) := rfl
  rw [h0, h1, h2, h3]
  rfl

theorem extract_dates_junk :
    extract_dates (List.replicate 15000 '#') = [] := by
  have h1 : findAll datePattern1 (List.replicate 15000 '#') = [] :=
    findAll_replicate (by decide) (by decide) 15000
  have h2 : findAll datePattern2 (List.replicate 15000 '#') = [] :=
    findAll_replicate (by decide) (by decide) 15000
  have h3 : findAll datePattern3 (List.replicate 15000 '#') = [] :=
    findAll_replicate (by decide) (by decide) 15000
  have hv1 : dateValues datePattern1 (List.replicate 15000 '#') = [] := by
    rw [dateValues, h1]
    rfl
  have hv2 : dateValues datePattern2 (List.replicate 15000 '#') = [] := by
    rw [dateValues, h2]
    rfl
  have hv3 : dateValues datePattern3 (List.replicate 15000 '#') = [] := by
    rw [dateValues, h3]
    rfl
  exact extract_dates_empty_values hv1 hv2 hv3

theorem extract_total_junk :
    extract_total_amount (List.replicate 15000 '#') = none := by
  have hl : findAll totalLabels (List.replicate 15000 '#') = [] :=
    findAll_replicate (by decide) (by decide) 15000
  have hs : reSearch amountRe (List.replicate 15000 '#') = none :=
    reSearch_replicate_none (by decide) (by decide) 15000
  rw [extract_total_amount, hl]
  rw [show totalFromLabels (List.replicate 15000 '#') [] = none from rfl, hs]

theorem extract_customer_junk :
    extract_customer_number (List.replicate 15000 '#') = none := by
  have hl : findAll customerLabels (List.replicate 15000 '#') = [] :=
    findAll_replicate (by decide) (by decide) 15000
  rw [extract_customer_number, hl]
  rfl

theorem extract_address_junk :
    extract_address (List.replicate 15000 '#') = none := by
  have hl : findAll addressLabels (List.replicate 15000 '#') = [] :=
    findAll_replicate (by decide) (by decide) 15000
  rw [extract_address, hl]
  rfl

theorem extract_from_subject_big :
    extract_from_subject bigSubject.data = [("folio", "1234567")] := by
  have hf1 : reSearch folioPattern1 bigSubject.data =
      some (15000, 14, [(1, "1234567")]) := by
    rw [bigSubject_data, reSearch,
      searchFrom_replicate (by decide) (by decide)]
    decide
  have hrut : reSearch rutPattern bigSubject.data = none := by
    rw [bigSubject_data, reSearch,
      searchFrom_replicate (by decide) (by decide)]
    decide
  rw [extract_from_subject.eq_def, hrut]
  rw [show folioPatterns =
    folioPattern1 :: [folioPattern2, folioPattern3, folioPattern4] from rfl]
  rw [folioLoop, hf1]
  rfl

theorem extract_big (b : String)
    (hcomb : combinedText bigSubject b = List.replicate 15000 '#') :
    extract_attributes_from_email_body bigSubject b =
      [("folio", "1234567")] := by
  rw [extract_unfold, hcomb]
  rw [extract_dates_junk, extract_total_junk,
    extract_customer_junk, extract_address_junk, extract_from_subject_big]
  rfl

/-- C3 (counterexample): with a 15,014-character subject whose folio
marker sits beyond the cap, the combined text is longer than 15,000
characters, the returned map carries folio `1234567`, yet that value does
not occur anywhere in the first 15,000 characters of the concatenation —
the subject extractor reads the whole subject, not the capped text. -/
theorem C3_counterexample :
    (bigSubject.data ++ '\n' :: '\n' :: ("" : String).data).length > 15000 ∧
    dictLookup (extract_attributes_from_email_body bigSubject "") "folio" =
      some "1234567" ∧
    ¬ containsSeg ("1234567").data
      ((bigSubject.data ++ '\n' :: '\n' :: ("" : String).data).take 15000) := by
  have h14 : ("Folio: 1234567").data.length = 14 := rfl
  have htake : (bigSubject.data ++ '\n' :: '\n' :: ("" : String).data).take 15000 =
      List.replicate 15000 '#' := by
    rw [bigSubject_data, List.append_assoc]
    have h := List.take_left (List.replicate 15000 '#')
      (("Folio: 1234567").data ++ '\n' :: '\n' :: ("" : String).data)
    rw [List.length_replicate] at h
    exact h
  refine ⟨?_, ?_, ?_⟩
  · rw [bigSubject_data, List.append_assoc, List.length_append,
      List.length_replicate, List.length_append, h14]
    simp
  · rw [extract_big "" (combinedText_big "")]
    rfl
  · intro h
    rw [htake] at h
    have h1 : '1' ∈ ("1234567").data := by decide
    have := containsSeg_mem h h1
    have := List.eq_of_mem_replicate this
    exact absurd this (by decide)

/-- C3 (amended): the combined text the body-derived extractors read is
hard-capped at 15,000 characters, and the extraction result depends on the
message text only through the subject and that capped combined text: two
bodies that agree on the capped combined text give identical results. -/
theorem C3_truncation :
    (∀ s b : String, (combinedText s b).length ≤ 15000) ∧
    (∀ s b b2 : String, combinedText s b = combinedText s b2 →
      extract_attributes_from_email_body s b =
        extract_attributes_from_email_body s b2) := by
  constructor
  · intro s b
    show (if (s.data ++ '\n' :: '\n' :: b.data).length > 15000
          then (s.data ++ '\n' :: '\n' :: b.data).take 15000
          else s.data ++ '\n' :: '\n' :: b.data).length ≤ 15000
    split
    · rw [List.length_take]
      omega
    · omega
  · intro s b b2 h
    rw [extract_unfold s b, extract_unfold s b2, h]

theorem C3_truncation_witness :
    extract_attributes_from_email_body bigSubject "" =
      extract_attributes_from_email_body bigSubject "ignored tail" :=
  C3_truncation.2 bigSubject "" "ignored tail"
    (by rw [combinedText_big, combinedText_big])

end Concierge
